import Mathlib

/-!
Verification of the Lattice_AI location-scouting core against its
natural-language specification.

The development shallowly embeds the Python source:

* `app/services/llm_worker.py` — header normalization
  (`_normalize_header_for_matching`), the pre-merge pass
  (`_pre_merge_obvious_duplicates`), the mapping-based merge
  (`_merge_locations`), the type-based merge (`_merge_by_location_type`,
  `_get_location_type`) and the four-pass pipeline
  (`deduplicate_locations_with_llm`).
* `app/grounding/grounding_agent.py` — candidate scoring
  (`_calculate_match_score`), response parsing (`parse_response`) and the
  batch scheduler (`process_scenes`).
* `app/grounding/models.py` — the candidate data model and
  `set_no_phone_status`.

Python strings are embedded as `List Char`, floats as `ℚ`, dicts as
insertion-ordered association lists, and the outcomes of external LLM /
search calls as explicit parameters (`Option` / `Except`), matching the
source's try/except recovery.
-/

set_option maxHeartbeats 1000000

namespace LatticeAI

/-! ### Generic helpers: lookup tables, association lists, stable sorts -/

/-- Lookup in a list of key/value pairs (first match wins). -/

def tblLookup {K V : Type} [DecidableEq K] : List (K × V) → K → Option V
  | [], _ => none
  | (k, v) :: rest, c => if c = k then some v else tblLookup rest c

/-- Append a value to the group held at key `k`, creating the group at the
end when the key is new (Python `dict.setdefault(k, []).append(v)`). -/

def alAppend {K V : Type} [DecidableEq K] (k : K) (v : V) :
    List (K × List V) → List (K × List V)
  | [] => [(k, [v])]
  | (k1, g) :: rest => if k = k1 then (k1, g ++ [v]) :: rest else (k1, g) :: alAppend k v rest

/-- Overwrite-or-append assignment (Python `d[k] = v`). -/

def alSet {K V : Type} [DecidableEq K] (k : K) (v : V) :
    List (K × V) → List (K × V)
  | [] => [(k, v)]
  | (k1, v1) :: rest => if k = k1 then (k1, v) :: rest else (k1, v1) :: alSet k v rest

/-- Stable ascending insertion by an integer key: an element is placed
before the first element with a key at least as large, so equal keys keep
their original relative order (Python `list.sort(key=...)`, stable). -/

def insByKey {α : Type} (key : α → Int) (a : α) : List α → List α
  | [] => [a]
  | b :: bs => if key a ≤ key b then a :: b :: bs else b :: insByKey key a bs

/-- Stable ascending sort by an integer key. -/

def sortByKey {α : Type} (key : α → Int) (l : List α) : List α :=
  l.foldr (insByKey key) []

/-- Stable descending insertion by a natural key (Python
`list.sort(key=..., reverse=True)`: descending, equal keys keep order). -/

def insByKeyDesc {α : Type} (key : α → Nat) (a : α) : List α → List α
  | [] => [a]
  | b :: bs => if key b ≤ key a then a :: b :: bs else b :: insByKeyDesc key a bs

/-- Stable descending sort by a natural key. -/

def sortByKeyDesc {α : Type} (key : α → Nat) (l : List α) : List α :=
  l.foldr (insByKeyDesc key) []

/-! ### Character-level embedding of the Python string primitives -/

/-- ASCII lower-to-upper table (Python `str.upper` on the ASCII headers
this code handles). -/

def upperPairs : List (Char × Char) :=
  [('a','A'), ('b','B'), ('c','C'), ('d','D'), ('e','E'), ('f','F'), ('g','G'),
   ('h','H'), ('i','I'), ('j','J'), ('k','K'), ('l','L'), ('m','M'), ('n','N'),
   ('o','O'), ('p','P'), ('q','Q'), ('r','R'), ('s','S'), ('t','T'), ('u','U'),
   ('v','V'), ('w','W'), ('x','X'), ('y','Y'), ('z','Z')]

/-- ASCII upper-to-lower table (Python `str.lower`). -/

def lowerPairs : List (Char × Char) := upperPairs.map (fun p => (p.2, p.1))

def pyUpperChar (c : Char) : Char :=
  match tblLookup upperPairs c with
  | some u => u
  | none => c

def pyLowerChar (c : Char) : Char :=
  match tblLookup lowerPairs c with
  | some u => u
  | none => c

/-- Python `\s` (ASCII range): space, tab, newline, carriage return,
vertical tab, form feed. -/

def isSpacePy (c : Char) : Bool :=
  c == ' ' || c == '\t' || c == '\n' || c == '\r' || c == '\x0b' || c == '\x0c'

/-- Python `str.strip()`: drop whitespace from both ends. -/

def pyStrip (s : List Char) : List Char :=
  (((s.dropWhile isSpacePy).reverse).dropWhile isSpacePy).reverse

/-! ### The header normalizer (`_normalize_header_for_matching`)

The Python function applies five regex rewrites in order; each is embedded
here as a recursive scan with the same leftmost-match, greedy semantics.
-/

/-- Stage 1, `re.sub(r'^(INT\.|EXT\.|INT|EXT)[\s/]*', '', h)`: an anchored
match tried once, alternatives in order, then the greedy `[\s/]*` tail. -/

def dropIntExt (s : List Char) : List Char :=
  if "INT.".toList.isPrefixOf s then (s.drop 4).dropWhile (fun c => isSpacePy c || c == '/')
  else if "EXT.".toList.isPrefixOf s then (s.drop 4).dropWhile (fun c => isSpacePy c || c == '/')
  else if "INT".toList.isPrefixOf s then (s.drop 3).dropWhile (fun c => isSpacePy c || c == '/')
  else if "EXT".toList.isPrefixOf s then (s.drop 3).dropWhile (fun c => isSpacePy c || c == '/')
  else s

/-- The time-of-day vocabulary, in the alternation order of the source
regex. -/

def todWords : List (List Char) :=
  ["DAY", "NIGHT", "MORNING", "EVENING", "DAWN", "DUSK", "SUNSET", "SUNRISE",
   "LATER", "CONTINUOUS", "SAME", "MOMENTS LATER"].map String.toList

def isHyph (c : Char) : Bool := c == '-' || c == '–'

/-- Try each alternation branch in order against `s`; on a hit, require one
whitespace character (consumed) or end of string, per `(\s|$)`. -/

def afterTodWord : List (List Char) → List Char → Option (List Char)
  | [], _ => none
  | w :: ws, s =>
    if w.isPrefixOf s then
      match s.drop w.length with
      | [] => some []
      | d :: ds => if isSpacePy d then some ds else afterTodWord ws s
    else afterTodWord ws s

/-- Does `\s*[-–]\s*(DAY|…|MOMENTS LATER)(\s|$)` match at the head of `s`?
Returns the remainder after the match. -/

def matchTodAt (s : List Char) : Option (List Char) :=
  match s.dropWhile isSpacePy with
  | [] => none
  | c :: u => if isHyph c then afterTodWord todWords (u.dropWhile isSpacePy) else none

/-- Stage 2 scan with explicit fuel (always run with fuel = length, which
suffices because every match consumes at least the hyphen). -/

def subTodF : Nat → List Char → List Char
  | _, [] => []
  | 0, s => s
  | fuel + 1, c :: cs =>
    match matchTodAt (c :: cs) with
    | some rest => subTodF fuel rest
    | none => c :: subTodF fuel cs

/-- Stage 2, `re.sub(r'\s*[-–]\s*(DAY|…)(\s|$)', '', h)`. -/

def subTod (s : List Char) : List Char := subTodF s.length s

/-- Does `\s*\([^)]*\)\s*` match at the head of `s`? Returns the remainder
after the match (greedy `[^)]*` stops at the first closing parenthesis). -/

def matchParenAt (s : List Char) : Option (List Char) :=
  match s.dropWhile isSpacePy with
  | [] => none
  | c :: u =>
    if c = '(' then
      match u.dropWhile (fun c2 => !(c2 == ')')) with
      | _ :: w => some (w.dropWhile isSpacePy)
      | [] => none
    else none

/-- Stage 3 scan with fuel; each match is replaced by a single space. -/

def subParenF : Nat → List Char → List Char
  | _, [] => []
  | 0, s => s
  | fuel + 1, c :: cs =>
    match matchParenAt (c :: cs) with
    | some rest => ' ' :: subParenF fuel rest
    | none => c :: subParenF fuel cs

/-- Stage 3, `re.sub(r'\s*\([^)]*\)\s*', ' ', h)`. -/

def subParen (s : List Char) : List Char := subParenF s.length s

/-- Character class `[\s\-–]` of stage 4. -/

def isWsh (c : Char) : Bool := isSpacePy c || c == '-' || c == '–'

/-- Stage 4, `re.sub(r'[\s\-–]+', ' ', h)`: every maximal run of
whitespace/hyphen characters becomes one space. -/

def collapseWs : List Char → List Char
  | [] => []
  | [c] => if isWsh c then [' '] else [c]
  | c :: d :: cs =>
    if isWsh c then
      if isWsh d then collapseWs (d :: cs) else ' ' :: collapseWs (d :: cs)
    else c :: collapseWs (d :: cs)

/-- Stage 5, `re.sub(r"['\"]", '', h)`: delete quote characters. -/

def removeQuotes (s : List Char) : List Char :=
  s.filter (fun c => !(c == '\x27' || c == '"'))

/-- The full normalizer `_normalize_header_for_matching`:
`h.upper().strip()`, then stages 1–4 (stage 4 ends with `.strip()`), then
stage 5. -/

def normalizeHeader (s : List Char) : List Char :=
  removeQuotes (pyStrip (collapseWs (subParen (subTod (dropIntExt (pyStrip (s.map pyUpperChar)))))))

/-- Absence of an opening parenthesis followed (anywhere later) by a
closing one, i.e. the pattern of stage 3 cannot match at any position. -/

def NoPair (s : List Char) : Prop := ¬ List.Sublist ['(', ')'] s

/-- No two adjacent space characters. -/

def noSpacePair : List Char → Bool
  | c :: d :: cs => !(c == ' ' && d == ' ') && noSpacePair (d :: cs)
  | _ => true

/-- Project a string onto its parenthesis characters only. -/

def keepParens (s : List Char) : List Char := s.filter (fun c => c == '(' || c == ')')

/-! ### Data model for deduplication (`app/models/location.py`) -/

structure SceneOccurrence where
  page_number : Int
  context : String
  deriving DecidableEq, Repr

structure UniqueLocation where
  scene_header : String
  interior_exterior : String
  time_of_day : String
  occurrences : List SceneOccurrence
  page_numbers : List Int
  deriving DecidableEq, Repr

/-- Python `sorted(set(...))` support: insert into a strictly ascending
list, skipping duplicates. -/

def insSorted (n : Int) : List Int → List Int
  | [] => [n]
  | m :: ms => if n < m then n :: m :: ms else if n = m then m :: ms else m :: insSorted n ms

/-- Python `sorted(set(a + b))`. -/

def sortedSetUnion (a b : List Int) : List Int := (a ++ b).foldr insSorted []

/-- The sort key `loc.page_numbers[0] if loc.page_numbers else d`. -/

def firstPageOr (d : Int) (l : UniqueLocation) : Int :=
  match l.page_numbers with
  | [] => d
  | p :: _ => p

/-! ### The three merge bodies of the dedup passes.

`preAbsorb` is the loop body of `_pre_merge_obvious_duplicates`,
`mergeInto` the in-place update of `_merge_locations`, and `typeStep` the
loop body of `_merge_by_location_type` (which threads the
interior/exterior accumulator in a separate local variable). -/

def preAbsorb (canonical other : UniqueLocation) : UniqueLocation :=
  { canonical with
    occurrences := canonical.occurrences ++ other.occurrences,
    page_numbers := sortedSetUnion canonical.page_numbers other.page_numbers,
    interior_exterior :=
      if canonical.interior_exterior ≠ other.interior_exterior then "both"
      else canonical.interior_exterior,
    time_of_day :=
      if canonical.time_of_day ≠ other.time_of_day then "both"
      else canonical.time_of_day }

def mergeInto (existing loc : UniqueLocation) : UniqueLocation :=
  { existing with
    occurrences := existing.occurrences ++ loc.occurrences,
    page_numbers := sortedSetUnion existing.page_numbers loc.page_numbers,
    time_of_day :=
      if existing.time_of_day ≠ loc.time_of_day ∧ loc.time_of_day ≠ "both" then "both"
      else existing.time_of_day,
    interior_exterior :=
      if existing.interior_exterior ≠ loc.interior_exterior then "both"
      else existing.interior_exterior }

def typeStep (acc : UniqueLocation × String) (loc : UniqueLocation) : UniqueLocation × String :=
  ({ acc.1 with
      occurrences := acc.1.occurrences ++ loc.occurrences,
      page_numbers := sortedSetUnion acc.1.page_numbers loc.page_numbers,
      time_of_day := if acc.1.time_of_day ≠ loc.time_of_day then "both" else acc.1.time_of_day },
   if acc.2 ≠ loc.interior_exterior then "both" else acc.2)

/-! ### Pass 0: `_pre_merge_obvious_duplicates` -/

def normKey (s : String) : List Char := normalizeHeader s.toList

def preGroupFold (locs : List UniqueLocation) : List (List Char × List UniqueLocation) :=
  locs.foldl (fun acc loc => alAppend (normKey loc.scene_header) loc acc) []

/-- The output of one normalization group: the sole member, or the fold of
the longest-header canonical over the rest. -/

def preMergeGroup (p : List Char × List UniqueLocation) : List UniqueLocation :=
  if p.2.length = 1 then p.2
  else
    match sortByKeyDesc (fun l => l.scene_header.length) p.2 with
    | [] => []
    | c :: rest => [rest.foldl preAbsorb c]

def preStep (acc : List UniqueLocation × Nat) (p : List Char × List UniqueLocation) :
    List UniqueLocation × Nat :=
  if p.2.length = 1 then (acc.1 ++ p.2, acc.2)
  else
    match sortByKeyDesc (fun l => l.scene_header.length) p.2 with
    | [] => acc
    | c :: rest => (acc.1 ++ [rest.foldl preAbsorb c], acc.2 + (p.2.length - 1))

def preMerge (locs : List UniqueLocation) : List UniqueLocation × Nat :=
  let groups := preGroupFold locs
  let step := groups.foldl preStep ([], 0)
  (sortByKey (firstPageOr 0) step.1, step.2)

/-! ### Pass 1 merge application: `_merge_locations` -/

/-- Update the insertion-ordered dict `merged`: merge into the existing
entry at the canonical key, or create a fresh entry carrying the canonical
header and copies of the occurrence/page lists. -/

def mergeUpd (k : String) (loc : UniqueLocation) :
    List (String × UniqueLocation) → List (String × UniqueLocation)
  | [] => [(k, { scene_header := k, interior_exterior := loc.interior_exterior,
                 time_of_day := loc.time_of_day, occurrences := loc.occurrences,
                 page_numbers := loc.page_numbers })]
  | (k1, v) :: rest =>
    if k = k1 then (k1, mergeInto v loc) :: rest else (k1, v) :: mergeUpd k loc rest

def mergeStep (headerMap : List (String × String)) (acc : List (String × UniqueLocation))
    (loc : UniqueLocation) : List (String × UniqueLocation) :=
  mergeUpd ((tblLookup headerMap loc.scene_header).getD loc.scene_header) loc acc

def mergeLocations (headerMap : List (String × String)) (locs : List UniqueLocation) :
    List UniqueLocation :=
  sortByKey (firstPageOr 0) ((locs.foldl (mergeStep headerMap) []).map Prod.snd)

/-- Flatten pass 1's `{canonical: [duplicates]}` answer into the
`header_to_canonical` dict, later assignments overwriting earlier ones. -/

def buildPass1Map (mergeGroups : List (String × List String)) : List (String × String) :=
  mergeGroups.foldl (fun acc p => p.2.foldl (fun acc2 dup => alSet dup p.1 acc2) acc) []

/-! ### Pass 2: the context pass on flagged headers -/

def groupByHeader (locs : List UniqueLocation) : List (String × List UniqueLocation) :=
  locs.foldl (fun acc loc => alAppend loc.scene_header loc acc) []

def pyLowerStr (s : String) : String := String.mk (s.toList.map pyLowerChar)

def buildContextMap (decisions : List (String × String))
    (gtc : List (String × List UniqueLocation)) : List (String × String) :=
  decisions.foldl (fun acc p =>
    if pyLowerStr p.2 = "same" then
      match tblLookup gtc p.1 with
      | some locs =>
        match locs with
        | [] => acc
        | c :: rest => rest.foldl (fun acc2 loc => alSet loc.scene_header c.scene_header acc2) acc
      | none => acc
    else acc) []

/-- The groups pass 2 checks: flagged locations grouped by exact header,
keeping only groups with more than one member. -/

def groupsToCheck (locs : List UniqueLocation) (needsCtx : List String) :
    List (String × List UniqueLocation) :=
  (groupByHeader (locs.filter (fun l => needsCtx.contains l.scene_header))).filter
    (fun p => 1 < p.2.length)

def contextPass (locs : List UniqueLocation) (needsCtx : List String)
    (decisions : Option (List (String × String))) : List UniqueLocation :=
  if needsCtx.isEmpty then locs
  else if (groupsToCheck locs needsCtx).isEmpty then locs
  else
    match decisions with
    | none => locs
    | some dec =>
      if (buildContextMap dec (groupsToCheck locs needsCtx)).isEmpty then locs
      else mergeLocations (buildContextMap dec (groupsToCheck locs needsCtx)) locs

/-! ### Pass 3: `_get_location_type` and `_merge_by_location_type` -/

def isWordChar (c : Char) : Bool :=
  ('a' ≤ c && c ≤ 'z') || ('A' ≤ c && c ≤ 'Z') || ('0' ≤ c && c ≤ '9') || c == '_'

/-- Match `lit1\s*lit2` at the head of `s`. -/

def matchLitWsLit (a b : List Char) (s : List Char) : Bool :=
  a.isPrefixOf s && b.isPrefixOf ((s.drop a.length).dropWhile isSpacePy)

/-- Match `office(?!\s+building)` at the head of `s`. -/

def matchOffice (s : List Char) : Bool :=
  "office".toList.isPrefixOf s &&
    !(match s.drop 6 with
      | [] => false
      | d :: _ => isSpacePy d && "building".toList.isPrefixOf ((s.drop 6).dropWhile isSpacePy))

/-- Match `bar(?!\w)` at the head of `s`. -/

def matchBar (s : List Char) : Bool :=
  "bar".toList.isPrefixOf s &&
    !(match s.drop 3 with
      | [] => false
      | d :: _ => isWordChar d)

/-- Match `parking\s*(lot|garage)` at the head of `s`. -/

def matchParking (s : List Char) : Bool :=
  "parking".toList.isPrefixOf s &&
    ("lot".toList.isPrefixOf ((s.drop 7).dropWhile isSpacePy) ||
     "garage".toList.isPrefixOf ((s.drop 7).dropWhile isSpacePy))

/-- Python `re.search`: does the position matcher succeed at any suffix? -/

def searchAny (m : List Char → Bool) : List Char → Bool
  | [] => m []
  | c :: cs => m (c :: cs) || searchAny m cs

/-- The `MERGEABLE_LOCATION_TYPES` table, in source order; each pattern is
embedded as a position matcher. -/

def mergeableLocationTypes : List ((List Char → Bool) × String) :=
  [(matchLitWsLit "dorm".toList "room".toList, "DORM ROOM"),
   (fun s => "bedroom".toList.isPrefixOf s, "BEDROOM"),
   (fun s => "bathroom".toList.isPrefixOf s, "BATHROOM"),
   (fun s => "kitchen".toList.isPrefixOf s, "KITCHEN"),
   (matchLitWsLit "living".toList "room".toList, "LIVING ROOM"),
   (matchOffice, "OFFICE"),
   (fun s => "classroom".toList.isPrefixOf s, "CLASSROOM"),
   (fun s => "hallway".toList.isPrefixOf s || "corridor".toList.isPrefixOf s, "HALLWAY"),
   (fun s => "lobby".toList.isPrefixOf s, "LOBBY"),
   (fun s => "elevator".toList.isPrefixOf s, "ELEVATOR"),
   (fun s => "stairwell".toList.isPrefixOf s || "stairs".toList.isPrefixOf s, "STAIRWELL"),
   (matchParking, "PARKING"),
   (matchLitWsLit "conference".toList "room".toList, "CONFERENCE ROOM"),
   (matchLitWsLit "hospital".toList "room".toList, "HOSPITAL ROOM"),
   (matchLitWsLit "hotel".toList "room".toList, "HOTEL ROOM"),
   (matchBar, "BAR"),
   (fun s => "restaurant".toList.isPrefixOf s, "RESTAURANT"),
   (fun s => "cafe".toList.isPrefixOf s || matchLitWsLit "coffee".toList "shop".toList s, "CAFE")]

/-- `_get_location_type`: first pattern matching the lowercased header. -/

def getLocationType (header : String) : Option String :=
  ((mergeableLocationTypes.find? (fun p => searchAny p.1 (header.toList.map pyLowerChar))).map
    Prod.snd)

def tgStep (acc : List (String × List UniqueLocation) × List UniqueLocation)
    (loc : UniqueLocation) : List (String × List UniqueLocation) × List UniqueLocation :=
  match getLocationType loc.scene_header with
  | some t => (alAppend t loc acc.1, acc.2)
  | none => (acc.1, acc.2 ++ [loc])

def typeGroupFold (locs : List UniqueLocation) :
    List (String × List UniqueLocation) × List UniqueLocation :=
  locs.foldl tgStep ([], [])

/-- Merge one type group: stable sort by first page, fold the tail into
the head, then set interior/exterior from the accumulator and rewrite the
header (`INT. <TYPE>` only when the final field is "interior"). -/

def mergeTypeGroup (locType : String) (locs : List UniqueLocation) : UniqueLocation :=
  match sortByKey (firstPageOr 999) locs with
  | [] => { scene_header := "", interior_exterior := "", time_of_day := "",
            occurrences := [], page_numbers := [] }
  | c :: rest =>
    let st := rest.foldl typeStep (c, c.interior_exterior)
    { st.1 with
      interior_exterior := st.2,
      scene_header := if st.2 = "interior" then "INT. " ++ locType else "INT./EXT. " ++ locType }

/-- The output of one type group: the sole member, or the merged
synthetic location. -/

def typeMergeGroupRes (p : String × List UniqueLocation) : List UniqueLocation :=
  if p.2.length = 1 then p.2 else [mergeTypeGroup p.1 p.2]

def typeResStep (acc : List UniqueLocation × Nat) (p : String × List UniqueLocation) :
    List UniqueLocation × Nat :=
  if p.2.length = 1 then (acc.1 ++ p.2, acc.2)
  else (acc.1 ++ [mergeTypeGroup p.1 p.2], acc.2 + (p.2.length - 1))

def mergeByLocationType (locs : List UniqueLocation) : List UniqueLocation × Nat :=
  let gp := typeGroupFold locs
  let step := gp.1.foldl typeResStep (gp.2, 0)
  (sortByKey (firstPageOr 0) step.1, step.2)

/-! ### The four-pass pipeline `deduplicate_locations_with_llm`.

External calls are parameters: `pass1` is pass 1's parsed answer
(`none` when the call or JSON extraction raised — the pass is skipped and
`needs_context` stays empty), `pass2` pass 2's parsed decisions. -/

/-- Apply pass 1 to the pre-merged list: on success merge under the
flattened header map and keep the flagged headers; on failure the list is
unchanged and `needs_context` stays empty. -/

def pass1Apply (l1 : List UniqueLocation)
    (pass1 : Option (List (String × List String) × List String)) :
    List UniqueLocation × List String :=
  match pass1 with
  | none => (l1, [])
  | some (mg, nc) => (mergeLocations (buildPass1Map mg) l1, nc)

def dedupPipeline (locs0 : List UniqueLocation)
    (pass1 : Option (List (String × List String) × List String))
    (pass2 : Option (List (String × String))) : List UniqueLocation :=
  if locs0.isEmpty then locs0
  else
    (mergeByLocationType
      (contextPass (pass1Apply (preMerge locs0).1 pass1).1
        (pass1Apply (preMerge locs0).1 pass1).2 pass2)).1

/-! ### Grounding data model (`app/grounding/models.py`) -/

inductive VapiCallStatus
  | not_initiated
  | queued
  | ringing
  | in_progress
  | completed
  | voicemail
  | no_answer
  | busy
  | failed
  | no_phone_number
  deriving DecidableEq, Repr

inductive CandidateStatus
  | discovered
  | call_pending
  | call_in_progress
  | call_completed
  | call_failed
  | human_review
  | approved
  | rejected
  | booked
  deriving DecidableEq, Repr

/-- The fields of `LocationCandidate` touched by parsing, scoring and the
status operations; floats are embedded as `ℚ`, pydantic defaults kept. -/

structure LocationCandidate where
  scene_id : String
  project_id : String
  venue_name : String
  formatted_address : String
  latitude : ℚ
  longitude : ℚ
  phone_number : Option String := none
  website_url : Option String := none
  google_rating : Option ℚ := none
  google_review_count : Int := 0
  match_reasoning : String := ""
  google_place_id : Option String := none
  red_flags : List String := []
  match_score : ℚ := 0
  vapi_call_status : VapiCallStatus := VapiCallStatus.not_initiated
  status : CandidateStatus := CandidateStatus.discovered
  approved_by : Option String := none
  rejection_reason : Option String := none
  deriving DecidableEq, Repr

structure LocationRequirement where
  id : String
  project_id : String
  scene_number : String := ""
  scene_header : String := ""
  target_city : String := "Los Angeles, CA"
  max_results : Nat := 10
  deriving DecidableEq, Repr

structure GroundingResult where
  scene_id : String
  project_id : String
  query_used : String
  candidates : List LocationCandidate
  total_found : Int
  filtered_count : Int
  processing_time_seconds : ℚ
  errors : List String := []
  warnings : List String := []
  deriving DecidableEq, Repr

/-- Python truthiness of an optional string (`None` and `""` falsy). -/

def truthyOptStr : Option String → Bool
  | none => false
  | some s => !(s == "")

/-- Python truthiness of a string. -/

def truthyStr (s : String) : Bool := !(s == "")

/-- `LocationCandidate.set_no_phone_status`. -/

def set_no_phone_status (c : LocationCandidate) : LocationCandidate :=
  { c with vapi_call_status := VapiCallStatus.no_phone_number,
           status := CandidateStatus.human_review,
           red_flags := c.red_flags ++ ["Phone number not available in listing"] }

/-! ### Candidate scoring (`GroundingAgent._calculate_match_score`).

The Python method also receives the requirement but its body never reads
it, so the embedding takes only the candidate. -/

/-- `if candidate.phone_number: score += 0.25`. -/

def phoneStep (c : LocationCandidate) (s : ℚ) : ℚ :=
  if truthyOptStr c.phone_number then s + 25/100 else s

/-- `if candidate.match_reasoning: score += 0.25`. -/

def reasonStep (c : LocationCandidate) (s : ℚ) : ℚ :=
  if truthyStr c.match_reasoning then s + 25/100 else s

/-- The rating block (`if candidate.google_rating:` with the nested
threshold chain; a rating of 0.0 is falsy). -/

def ratingStep (c : LocationCandidate) (s : ℚ) : ℚ :=
  match c.google_rating with
  | none => s
  | some r =>
    if r = 0 then s
    else if 4 ≤ r ∧ 50 ≤ c.google_review_count then s + 25/100
    else if 7/2 ≤ r then s + 15/100
    else if 3 ≤ r then s + 10/100
    else s

/-- `if candidate.website_url: score += 0.10`. -/

def websiteStep (c : LocationCandidate) (s : ℚ) : ℚ :=
  if truthyOptStr c.website_url then s + 10/100 else s

/-- The red-flag block (`+0.15` for none, `+0.10` for exactly one). -/

def flagStep (c : LocationCandidate) (s : ℚ) : ℚ :=
  if c.red_flags.length = 0 then s + 15/100
  else if c.red_flags.length = 1 then s + 10/100
  else s

def calculateMatchScore (c : LocationCandidate) : ℚ :=
  min (flagStep c (websiteStep c (ratingStep c (reasonStep c (phoneStep c 0))))) 1

/-! ### The claim-side decomposition of the score (one summand per factor
named in the specification). -/

def phoneComp (c : LocationCandidate) : ℚ :=
  if truthyOptStr c.phone_number then 1/4 else 0

def reasoningComp (c : LocationCandidate) : ℚ :=
  if truthyStr c.match_reasoning then 1/4 else 0

def ratingPoints (g : Option ℚ) (cnt : Int) : ℚ :=
  match g with
  | none => 0
  | some r =>
    if r = 0 then 0
    else if 4 ≤ r ∧ 50 ≤ cnt then 1/4
    else if 7/2 ≤ r then 3/20
    else if 3 ≤ r then 1/10
    else 0

def ratingComp (c : LocationCandidate) : ℚ :=
  ratingPoints c.google_rating c.google_review_count

def websiteComp (c : LocationCandidate) : ℚ :=
  if truthyOptStr c.website_url then 1/10 else 0

def redFlagPoints (n : Nat) : ℚ :=
  if n = 0 then 3/20 else if n = 1 then 1/10 else 0

def redFlagComp (c : LocationCandidate) : ℚ := redFlagPoints c.red_flags.length

/-! ### Response parsing (`GroundingAgent.parse_response`, per location) -/

/-- One structured venue record from the provider response; `none` models
an absent or null JSON field. -/

structure RawLocation where
  venue_name : Option String := none
  formatted_address : Option String := none
  latitude : Option ℚ := none
  longitude : Option ℚ := none
  phone_number : Option String := none
  website_url : Option String := none
  google_rating : Option ℚ := none
  google_review_count : Option Int := none
  match_reasoning : Option String := none
  place_id : Option String := none
  potential_concerns : List String := []
  deriving DecidableEq, Repr

/-- The candidate as it stands right after construction, concern
red-flags and match-score assignment — before the phone-based status
branch. -/

def parseBase (req : LocationRequirement) (raw : RawLocation) : LocationCandidate :=
  let c : LocationCandidate := {
    scene_id := req.id,
    project_id := req.project_id,
    venue_name := raw.venue_name.getD "Unknown Venue",
    formatted_address := raw.formatted_address.getD "",
    latitude := raw.latitude.getD 0,
    longitude := raw.longitude.getD 0,
    phone_number := raw.phone_number,
    website_url := raw.website_url,
    google_rating :=
      match raw.google_rating with
      | none => none
      | some v => if v = 0 then none else some v,
    google_review_count := raw.google_review_count.getD 0,
    match_reasoning := raw.match_reasoning.getD "",
    google_place_id := raw.place_id }
  let c :=
    if raw.potential_concerns.isEmpty then c
    else { c with red_flags := raw.potential_concerns }
  { c with match_score := calculateMatchScore c }

/-- One iteration of the `parse_response` loop: build the candidate,
score it, then set the status from phone-number availability. -/

def parseOneLocation (req : LocationRequirement) (raw : RawLocation) : LocationCandidate :=
  let c := parseBase req raw
  if truthyOptStr c.phone_number then
    { c with vapi_call_status := VapiCallStatus.not_initiated,
             status := CandidateStatus.discovered }
  else set_no_phone_status c

/-! ### Candidate status operations found in the repository
(`LocationCandidateRepository.approve` / `.reject`; no operation anywhere
in the source assigns `call_pending` or `call_in_progress`). -/

inductive CandidateOp
  | approve (approvedBy : String)
  | reject (reason : String)
  deriving DecidableEq, Repr

def applyOp (c : LocationCandidate) : CandidateOp → LocationCandidate
  | CandidateOp.approve b =>
    { c with status := CandidateStatus.approved, approved_by := some b }
  | CandidateOp.reject r =>
    { c with status := CandidateStatus.rejected, rejection_reason := some r }

def runOps (c : LocationCandidate) (ops : List CandidateOp) : LocationCandidate :=
  ops.foldl applyOp c

/-! ### The batch scheduler (`GroundingAgent.process_scenes`).

`asyncio.gather(..., return_exceptions=True)` returns one outcome per
requirement, in submission order; each outcome is either that
requirement's `GroundingResult` or the exception it raised, modelled as
`Except String GroundingResult`. -/

/-- The error placeholder `process_scenes` builds for a requirement whose
processing raised. -/

def errorResult (req : LocationRequirement) (e : String) : GroundingResult :=
  { scene_id := req.id, project_id := req.project_id, query_used := "",
    candidates := [], total_found := 0, filtered_count := 0,
    processing_time_seconds := 0, errors := [e], warnings := [] }

def outcomeResult (req : LocationRequirement) (oc : Except String GroundingResult) :
    GroundingResult :=
  match oc with
  | Except.ok r => r
  | Except.error e => errorResult req e

def processScenes (reqs : List LocationRequirement)
    (outcomes : List (Except String GroundingResult)) : List GroundingResult :=
  (reqs.zip outcomes).map (fun p => outcomeResult p.1 p.2)

/-- A concrete exterior bedroom location (witness data). -/

def cwBedroom1 : UniqueLocation :=
  { scene_header := "EXT. BEDROOM - DAY", interior_exterior := "exterior",
    time_of_day := "day",
    occurrences := [{ page_number := 1, context := "a" }], page_numbers := [1] }

/-- A second concrete exterior bedroom location (witness data). -/

def cwBedroom2 : UniqueLocation :=
  { scene_header := "EXT. CAMPUS BEDROOM - NIGHT", interior_exterior := "exterior",
    time_of_day := "night",
    occurrences := [{ page_number := 2, context := "b" }], page_numbers := [2] }

/-- A concrete candidate (witness data). -/

def cwCand : LocationCandidate :=
  { scene_id := "s1", project_id := "p1", venue_name := "Cafe",
    formatted_address := "1 Main St", latitude := 0, longitude := 0,
    phone_number := some "555-0100", website_url := some "cafe.example",
    google_rating := some 4, google_review_count := 60,
    match_reasoning := "good fit" }

/-- A concrete requirement (witness data). -/

def cwReq : LocationRequirement :=
  { id := "scene-1", project_id := "proj-1", scene_header := "INT. KITCHEN - DAY" }

/-- A second concrete requirement (witness data). -/

def cwReq2 : LocationRequirement :=
  { id := "scene-2", project_id := "proj-1", scene_header := "EXT. PARK - DAY" }

/-- A concrete provider record with no phone number (witness data). -/

def cwRawNoPhone : RawLocation :=
  { venue_name := some "Quiet Cafe", formatted_address := some "2 Elm St",
    phone_number := none, website_url := some "quiet.example",
    google_rating := some (9/2), google_review_count := some 80,
    match_reasoning := some "matches brief", potential_concerns := [] }

/-- A concrete successful grounding result (witness data). -/

def cwOkResult : GroundingResult :=
  { scene_id := "scene-1", project_id := "proj-1", query_used := "cafe",
    candidates := [], total_found := 1, filtered_count := 1,
    processing_time_seconds := 1 }

def pagesOf (l : UniqueLocation) : Finset Int := l.page_numbers.toFinset

def pagesUnion : List UniqueLocation → Finset Int
  | [] => ∅
  | l :: ls => pagesOf l ∪ pagesUnion ls

/-! ### Grouping folds -/

/-- All values of an insertion-ordered group dict, in order. -/

def flatVals {K V : Type} (g : List (K × List V)) : List V :=
  g.foldr (fun p acc => p.2 ++ acc) []

/-! ### Pre-merge pass: cardinality and page conservation -/

/-- Concatenate per-group results in group order. -/

def groupResCat {K : Type} (f : (K × List UniqueLocation) → List UniqueLocation)
    (gs : List (K × List UniqueLocation)) : List UniqueLocation :=
  gs.foldr (fun p r => f p ++ r) []

/-! ### Type-merge pass -/

/-- Concatenated occurrence lists, in order. -/

def occsCat (ls : List UniqueLocation) : List SceneOccurrence :=
  ls.foldr (fun l r => l.occurrences ++ r) []

theorem tblLookup_mem {K V : Type} [DecidableEq K] :
    ∀ (t : List (K × V)) (c : K) (u : V), tblLookup t c = some u → (c, u) ∈ t := by
  intro t
  induction t with
  | nil => intro c u h; simp [tblLookup] at h
  | cons p rest ih =>
    intro c u h
    obtain ⟨k, v⟩ := p
    by_cases hc : c = k
    · subst hc
      simp [tblLookup] at h
      subst h
      exact List.mem_cons_self _ _
    · simp [tblLookup, hc] at h
      exact List.mem_cons_of_mem _ (ih c u h)

theorem insByKey_perm {α : Type} (key : α → Int) (a : α) :
    ∀ l : List α, List.Perm (insByKey key a l) (a :: l) := by
  intro l
  induction l with
  | nil => simp [insByKey]
  | cons b bs ih =>
    by_cases h : key a ≤ key b
    · simp [insByKey, h]
    · simp only [insByKey, h, if_false]
      exact (ih.cons b).trans (List.Perm.swap a b bs)

theorem sortByKey_perm {α : Type} (key : α → Int) :
    ∀ l : List α, List.Perm (sortByKey key l) l := by
  intro l
  induction l with
  | nil => simp [sortByKey]
  | cons a as ih =>
    exact (insByKey_perm key a (sortByKey key as)).trans (ih.cons a)

theorem insByKeyDesc_perm {α : Type} (key : α → Nat) (a : α) :
    ∀ l : List α, List.Perm (insByKeyDesc key a l) (a :: l) := by
  intro l
  induction l with
  | nil => simp [insByKeyDesc]
  | cons b bs ih =>
    by_cases h : key b ≤ key a
    · simp [insByKeyDesc, h]
    · simp only [insByKeyDesc, h, if_false]
      exact (ih.cons b).trans (List.Perm.swap a b bs)

theorem sortByKeyDesc_perm {α : Type} (key : α → Nat) :
    ∀ l : List α, List.Perm (sortByKeyDesc key l) l := by
  intro l
  induction l with
  | nil => simp [sortByKeyDesc]
  | cons a as ih =>
    exact (insByKeyDesc_perm key a (sortByKeyDesc key as)).trans (ih.cons a)

theorem upperPairs_value_not_key :
    ∀ p ∈ upperPairs, tblLookup upperPairs p.2 = none := by decide

theorem pyUpperChar_idem (c : Char) : pyUpperChar (pyUpperChar c) = pyUpperChar c := by
  unfold pyUpperChar
  cases h : tblLookup upperPairs c with
  | none => simp [h]
  | some u =>
    have hmem := tblLookup_mem upperPairs c u h
    have := upperPairs_value_not_key (c, u) hmem
    simp at this
    simp [this]

/-! ### Structural facts about the normalizer stages -/

theorem afterTodWord_suffix :
    ∀ (ws : List (List Char)) (s r : List Char), afterTodWord ws s = some r → r <:+ s := by
  intro ws
  induction ws with
  | nil => intro s r h; simp [afterTodWord] at h
  | cons w ws ih =>
    intro s r h
    by_cases hp : w.isPrefixOf s
    · simp only [afterTodWord, hp, if_true] at h
      cases hd : s.drop w.length with
      | nil => rw [hd] at h; simp at h; subst h; exact List.nil_suffix
      | cons d ds =>
        rw [hd] at h
        by_cases hsp : isSpacePy d
        · simp [hsp] at h
          subst h
          have : s.drop (w.length + 1) = ds := by
            rw [← List.tail_drop, hd]
            rfl
          rw [← this]
          exact List.drop_suffix _ s
        · simp [hsp] at h
          exact ih s r h
    · simp only [afterTodWord, hp, if_false] at h
      exact ih s r h

theorem matchTodAt_some {s r : List Char} (h : matchTodAt s = some r) :
    r <:+ s ∧ r.length < s.length ∧ ∃ c ∈ s, isHyph c = true := by
  unfold matchTodAt at h
  cases hd : s.dropWhile isSpacePy with
  | nil => rw [hd] at h; simp at h
  | cons c u =>
    rw [hd] at h
    by_cases hh : isHyph c
    · simp only [hh, if_true] at h
      have hsufd : c :: u <:+ s := hd ▸ List.dropWhile_suffix isSpacePy
      have h1 : r <:+ u.dropWhile isSpacePy := afterTodWord_suffix _ _ _ h
      have h2 : u.dropWhile isSpacePy <:+ u := List.dropWhile_suffix isSpacePy
      have h3 : u <:+ c :: u := List.suffix_cons c u
      constructor
      · exact ((h1.trans h2).trans h3).trans hsufd
      constructor
      · have l1 : r.length ≤ u.length := ((h1.trans h2).sublist).length_le
        have l2 : (c :: u).length ≤ s.length := hsufd.sublist.length_le
        simp at l2
        omega
      · exact ⟨c, hsufd.sublist.subset (List.mem_cons_self c u), hh⟩
    · simp [hh] at h

theorem matchTodAt_none {s : List Char} (hfree : ∀ c ∈ s, isHyph c = false) :
    matchTodAt s = none := by
  cases h : matchTodAt s with
  | none => rfl
  | some r =>
    obtain ⟨-, -, c, hc, hhy⟩ := matchTodAt_some h
    rw [hfree c hc] at hhy
    cases hhy

theorem subTodF_mem :
    ∀ (fuel : Nat) (s : List Char), s.length ≤ fuel →
      ∀ c ∈ subTodF fuel s, c ∈ s := by
  intro fuel
  induction fuel with
  | zero =>
    intro s hl c hc
    cases s with
    | nil => simp [subTodF] at hc
    | cons a as => simp at hl
  | succ n ih =>
    intro s hl c hc
    cases s with
    | nil => simp [subTodF] at hc
    | cons a as =>
      cases hm : matchTodAt (a :: as) with
      | some rest =>
        rw [subTodF, hm] at hc
        obtain ⟨hsuf, hlt, -⟩ := matchTodAt_some hm
        have : rest.length ≤ n := by simp at hl hlt ⊢; omega
        exact hsuf.sublist.subset (ih rest this c hc)
      | none =>
        rw [subTodF, hm] at hc
        rcases List.mem_cons.mp hc with h | h
        · exact h ▸ List.mem_cons_self a as
        · have : as.length ≤ n := by simp at hl; omega
          exact List.mem_cons_of_mem a (ih as this c h)

theorem subTodF_eq_self :
    ∀ (fuel : Nat) (s : List Char), (∀ c ∈ s, isHyph c = false) → subTodF fuel s = s := by
  intro fuel
  induction fuel with
  | zero => intro s _; cases s <;> simp [subTodF]
  | succ n ih =>
    intro s hfree
    cases s with
    | nil => simp [subTodF]
    | cons a as =>
      rw [subTodF, matchTodAt_none hfree]
      have : ∀ c ∈ as, isHyph c = false := fun c hc => hfree c (List.mem_cons_of_mem a hc)
      rw [ih as this]

theorem subTod_mem {s : List Char} {c : Char} (h : c ∈ subTod s) : c ∈ s :=
  subTodF_mem s.length s le_rfl c h

theorem subTod_eq_self {s : List Char} (hfree : ∀ c ∈ s, isHyph c = false) :
    subTod s = s :=
  subTodF_eq_self s.length s hfree

theorem noPair_nil : NoPair [] := by
  intro h
  simp at h

theorem NoPair.of_sublist {s t : List Char} (hsub : List.Sublist t s) (h : NoPair s) :
    NoPair t := fun hp => h (hp.trans hsub)

theorem noPair_cons {c : Char} {s : List Char} (h : NoPair (c :: s)) : NoPair s :=
  fun hp => h (hp.cons c)

theorem noPair_cons_iff {c : Char} {s : List Char} (hc : c ≠ '(') :
    NoPair (c :: s) ↔ NoPair s := by
  constructor
  · exact noPair_cons
  · intro h hp
    cases hp with
    | cons _ h2 => exact h h2
    | cons₂ _ h2 => exact hc rfl

theorem noPair_lparen_cons {s : List Char} (hmem : ')' ∉ s) (h : NoPair s) :
    NoPair ('(' :: s) := by
  intro hp
  cases hp with
  | cons _ h2 => exact h h2
  | cons₂ _ h2 =>
    exact hmem (List.singleton_sublist.mp h2)

theorem dropWhile_cons_prop {α : Type} (p : α → Bool) :
    ∀ (l : List α) (y : α) (w : List α), l.dropWhile p = y :: w → p y = false := by
  intro l
  induction l with
  | nil => intro y w h; simp at h
  | cons a as ih =>
    intro y w h
    by_cases hp : p a
    · rw [List.dropWhile_cons, if_pos hp] at h
      exact ih y w h
    · rw [List.dropWhile_cons, if_neg hp] at h
      cases h
      exact eq_false_of_ne_true hp

theorem matchParenAt_some {s r : List Char} (h : matchParenAt s = some r) :
    r <:+ s ∧ r.length + 2 ≤ s.length ∧ List.Sublist ['(', ')'] s := by
  unfold matchParenAt at h
  cases hd : s.dropWhile isSpacePy with
  | nil => rw [hd] at h; simp at h
  | cons c u =>
    rw [hd] at h
    by_cases hc : c = '('
    · simp only [hc, if_pos rfl] at h
      cases hd2 : u.dropWhile (fun c2 => !(c2 == ')')) with
      | nil => rw [hd2] at h; simp at h
      | cons y w =>
        rw [hd2] at h
        simp at h
        subst h
        have hy : y = ')' := by
          have := dropWhile_cons_prop _ u y w hd2
          simp at this
          exact this
        have hsufd : c :: u <:+ s := hd ▸ List.dropWhile_suffix isSpacePy
        have hyw : y :: w <:+ u := hd2 ▸ List.dropWhile_suffix _
        have hrw : (w.dropWhile isSpacePy) <:+ w := List.dropWhile_suffix _
        have hws : w <:+ y :: w := List.suffix_cons y w
        constructor
        · exact (((hrw.trans hws).trans hyw).trans (List.suffix_cons c u)).trans hsufd
        constructor
        · have l1 : (w.dropWhile isSpacePy).length ≤ w.length := hrw.sublist.length_le
          have l2 : (y :: w).length ≤ u.length := hyw.sublist.length_le
          have l3 : (c :: u).length ≤ s.length := hsufd.sublist.length_le
          simp at l2 l3
          omega
        · have hmem : ')' ∈ u := by
            rw [← hy]
            exact hyw.sublist.subset (List.mem_cons_self y w)
          have hpair : List.Sublist ['(', ')'] (c :: u) := by
            rw [hc]
            exact (List.singleton_sublist.mpr hmem).cons₂ '('
          exact hpair.trans hsufd.sublist
    · simp [hc] at h

theorem matchParenAt_lparen {cs : List Char} (hmem : ')' ∈ cs) :
    matchParenAt ('(' :: cs) ≠ none := by
  have hds : ('(' :: cs).dropWhile isSpacePy = '(' :: cs := by
    rw [List.dropWhile_cons, if_neg (by decide)]
  unfold matchParenAt
  rw [hds]
  simp only [if_pos rfl]
  cases hd2 : cs.dropWhile (fun c2 => !(c2 == ')')) with
  | nil =>
    rw [List.dropWhile_eq_nil_iff] at hd2
    have := hd2 ')' hmem
    simp at this
  | cons y w => simp

theorem matchParenAt_none_of_noPair {s : List Char} (h : NoPair s) :
    matchParenAt s = none := by
  cases hm : matchParenAt s with
  | none => rfl
  | some r =>
    obtain ⟨-, -, hpair⟩ := matchParenAt_some hm
    exact absurd hpair h

theorem subParenF_mem :
    ∀ (fuel : Nat) (s : List Char), s.length ≤ fuel →
      ∀ c ∈ subParenF fuel s, c ∈ s ∨ c = ' ' := by
  intro fuel
  induction fuel with
  | zero =>
    intro s hl c hc
    cases s with
    | nil => simp [subParenF] at hc
    | cons a as => simp at hl
  | succ n ih =>
    intro s hl c hc
    cases s with
    | nil => simp [subParenF] at hc
    | cons a as =>
      cases hm : matchParenAt (a :: as) with
      | some rest =>
        rw [subParenF, hm] at hc
        obtain ⟨hsuf, hlt, -⟩ := matchParenAt_some hm
        rcases List.mem_cons.mp hc with h | h
        · exact Or.inr h
        · have : rest.length ≤ n := by simp at hl hlt ⊢; omega
          rcases ih rest this c h with h2 | h2
          · exact Or.inl (hsuf.sublist.subset h2)
          · exact Or.inr h2
      | none =>
        rw [subParenF, hm] at hc
        rcases List.mem_cons.mp hc with h | h
        · exact Or.inl (h ▸ List.mem_cons_self a as)
        · have : as.length ≤ n := by simp at hl; omega
          rcases ih as this c h with h2 | h2
          · exact Or.inl (List.mem_cons_of_mem a h2)
          · exact Or.inr h2

theorem noPair_subParenF :
    ∀ (fuel : Nat) (s : List Char), s.length ≤ fuel → NoPair (subParenF fuel s) := by
  intro fuel
  induction fuel with
  | zero =>
    intro s hl
    cases s with
    | nil => exact noPair_nil
    | cons a as => simp at hl
  | succ n ih =>
    intro s hl
    cases s with
    | nil => exact noPair_nil
    | cons a as =>
      cases hm : matchParenAt (a :: as) with
      | some rest =>
        rw [subParenF, hm]
        obtain ⟨-, hlt, -⟩ := matchParenAt_some hm
        have hrest : rest.length ≤ n := by simp at hl hlt ⊢; omega
        exact (noPair_cons_iff (by decide)).mpr (ih rest hrest)
      | none =>
        rw [subParenF, hm]
        have has : as.length ≤ n := by simp at hl; omega
        by_cases ha : a = '('
        · subst ha
          refine noPair_lparen_cons ?_ (ih as has)
          intro hmem
          rcases subParenF_mem n as has ')' hmem with h2 | h2
          · exact matchParenAt_lparen h2 hm
          · cases h2
        · exact (noPair_cons_iff ha).mpr (ih as has)

theorem subParenF_eq_self :
    ∀ (fuel : Nat) (s : List Char), NoPair s → subParenF fuel s = s := by
  intro fuel
  induction fuel with
  | zero => intro s _; cases s <;> simp [subParenF]
  | succ n ih =>
    intro s h
    cases s with
    | nil => simp [subParenF]
    | cons a as =>
      rw [subParenF, matchParenAt_none_of_noPair h]
      rw [ih as (noPair_cons h)]

theorem subParen_mem {s : List Char} {c : Char} (h : c ∈ subParen s) : c ∈ s ∨ c = ' ' :=
  subParenF_mem s.length s le_rfl c h

theorem noPair_subParen (s : List Char) : NoPair (subParen s) :=
  noPair_subParenF s.length s le_rfl

theorem subParen_eq_self {s : List Char} (h : NoPair s) : subParen s = s :=
  subParenF_eq_self s.length s h

theorem collapseWs_mem :
    ∀ (s : List Char) (c : Char), c ∈ collapseWs s → c = ' ' ∨ (c ∈ s ∧ isWsh c = false) := by
  intro s
  induction s with
  | nil => intro c hc; simp [collapseWs] at hc
  | cons a as ih =>
    intro c hc
    cases as with
    | nil =>
      by_cases ha : isWsh a
      · simp [collapseWs, ha] at hc
        exact Or.inl hc
      · simp [collapseWs, ha] at hc
        subst hc
        exact Or.inr ⟨List.mem_cons_self _ _, eq_false_of_ne_true ha⟩
    | cons d cs =>
      by_cases ha : isWsh a
      · by_cases hd : isWsh d
        · rw [collapseWs, if_pos ha, if_pos hd] at hc
          rcases ih c hc with h | ⟨h1, h2⟩
          · exact Or.inl h
          · exact Or.inr ⟨List.mem_cons_of_mem a h1, h2⟩
        · rw [collapseWs, if_pos ha, if_neg hd] at hc
          rcases List.mem_cons.mp hc with h | h
          · exact Or.inl h
          · rcases ih c h with h2 | ⟨h1, h2⟩
            · exact Or.inl h2
            · exact Or.inr ⟨List.mem_cons_of_mem a h1, h2⟩
      · rw [collapseWs, if_neg ha] at hc
        rcases List.mem_cons.mp hc with h | h
        · subst h
          exact Or.inr ⟨List.mem_cons_self c _, eq_false_of_ne_true ha⟩
        · rcases ih c h with h2 | ⟨h1, h2⟩
          · exact Or.inl h2
          · exact Or.inr ⟨List.mem_cons_of_mem a h1, h2⟩

theorem collapseWs_eq_self :
    ∀ (s : List Char), (∀ c ∈ s, isWsh c = true → c = ' ') → noSpacePair s = true →
      collapseWs s = s := by
  intro s
  induction s with
  | nil => intro _ _; rfl
  | cons a as ih =>
    intro hw hp
    cases as with
    | nil =>
      by_cases ha : isWsh a
      · have := hw a (List.mem_cons_self a []) ha
        simp [collapseWs, ha, this]
      · simp [collapseWs, ha]
    | cons d cs =>
      have htail : noSpacePair (d :: cs) = true := by
        simp [noSpacePair] at hp
        exact hp.2
      have hwtail : ∀ c ∈ d :: cs, isWsh c = true → c = ' ' :=
        fun c hc => hw c (List.mem_cons_of_mem a hc)
      by_cases ha : isWsh a
      · have ha2 : a = ' ' := hw a (List.mem_cons_self a _) ha
        by_cases hd : isWsh d
        · have hd2 : d = ' ' := hw d (List.mem_cons_of_mem a (List.mem_cons_self d cs)) hd
          subst ha2; subst hd2
          simp [noSpacePair] at hp
        · rw [collapseWs, if_pos ha, if_neg hd, ih hwtail htail, ha2]
      · rw [collapseWs, if_neg ha, ih hwtail htail]

theorem wsh_not_paren {c : Char} (h : isWsh c = true) : (c == '(' || c == ')') = false := by
  simp [isWsh, isSpacePy] at h
  rcases h with ((((((h | h) | h) | h) | h) | h) | h) | h <;> subst h <;> decide

theorem keepParens_collapseWs :
    ∀ (s : List Char), keepParens (collapseWs s) = keepParens s := by
  intro s
  induction s with
  | nil => rfl
  | cons a as ih =>
    cases as with
    | nil =>
      by_cases ha : isWsh a
      · simp [collapseWs, ha, keepParens, wsh_not_paren ha]
      · simp [collapseWs, ha]
    | cons d cs =>
      by_cases ha : isWsh a
      · by_cases hd : isWsh d
        · rw [collapseWs, if_pos ha, if_pos hd, ih]
          have h1 : keepParens (a :: d :: cs) = keepParens (d :: cs) := by
            simp [keepParens, List.filter_cons, wsh_not_paren ha]
          rw [h1]
        · rw [collapseWs, if_pos ha, if_neg hd]
          have h1 : keepParens (' ' :: collapseWs (d :: cs)) = keepParens (collapseWs (d :: cs)) := by
            simp [keepParens, List.filter_cons]
          have h2 : keepParens (a :: d :: cs) = keepParens (d :: cs) := by
            simp [keepParens, List.filter_cons, wsh_not_paren ha]
          rw [h1, h2, ih]
      · rw [collapseWs, if_neg ha]
        simp only [keepParens] at ih ⊢
        rw [List.filter_cons, List.filter_cons, ih]

theorem noPair_keepParens {s : List Char} (h : NoPair (keepParens s)) : NoPair s := by
  intro hp
  have h2 := hp.filter (fun c => c == '(' || c == ')')
  have h3 : List.filter (fun c => c == '(' || c == ')') ['(', ')'] = ['(', ')'] := by decide
  rw [h3] at h2
  exact h h2

theorem noPair_collapseWs {s : List Char} (h : NoPair s) : NoPair (collapseWs s) := by
  refine noPair_keepParens ?_
  rw [keepParens_collapseWs]
  exact NoPair.of_sublist (List.filter_sublist s) h

theorem pyStrip_sublist (s : List Char) : List.Sublist (pyStrip s) s := by
  unfold pyStrip
  have h1 : s.dropWhile isSpacePy <:+ s := List.dropWhile_suffix isSpacePy
  have h2 : (s.dropWhile isSpacePy).reverse.dropWhile isSpacePy <:+
      (s.dropWhile isSpacePy).reverse := List.dropWhile_suffix isSpacePy
  have h3 : ((s.dropWhile isSpacePy).reverse.dropWhile isSpacePy).reverse <+:
      s.dropWhile isSpacePy := by
    have h4 := List.reverse_prefix.mpr h2
    simpa using h4
  exact (h3.sublist).trans h1.sublist

theorem pyStrip_mem {s : List Char} {c : Char} (h : c ∈ pyStrip s) : c ∈ s :=
  (pyStrip_sublist s).subset h

theorem dropWhileSpace_eq_self {s : List Char} (hh : s.head? ≠ some ' ')
    (hw : ∀ c ∈ s, isWsh c = true → c = ' ') : s.dropWhile isSpacePy = s := by
  cases s with
  | nil => rfl
  | cons a as =>
    by_cases ha : isSpacePy a
    · have haw : isWsh a = true := by simp [isWsh, ha]
      have := hw a (List.mem_cons_self a as) haw
      subst this
      simp at hh
    · rw [List.dropWhile_cons, if_neg (by simp [ha])]

theorem pyStrip_eq_self {s : List Char} (hh : s.head? ≠ some ' ')
    (hl : s.getLast? ≠ some ' ')
    (hw : ∀ c ∈ s, isWsh c = true → c = ' ') : pyStrip s = s := by
  unfold pyStrip
  rw [dropWhileSpace_eq_self hh hw]
  have hrev : s.reverse.dropWhile isSpacePy = s.reverse := by
    refine dropWhileSpace_eq_self ?_ ?_
    · rw [List.head?_reverse]
      exact hl
    · intro c hc
      exact hw c (List.mem_reverse.mp hc)
  rw [hrev, List.reverse_reverse]

theorem dropIntExt_eq_self {s : List Char}
    (h1 : "INT".toList.isPrefixOf s = false)
    (h2 : "EXT".toList.isPrefixOf s = false) : dropIntExt s = s := by
  have m1 : ¬("INT".toList.isPrefixOf s = true) := by rw [h1]; exact Bool.false_ne_true
  have m2 : ¬("EXT".toList.isPrefixOf s = true) := by rw [h2]; exact Bool.false_ne_true
  have m3 : ¬("INT.".toList.isPrefixOf s = true) := by
    intro hp
    exact m1 (List.isPrefixOf_iff_prefix.mpr
      ((by decide : "INT".toList <+: "INT.".toList).trans (List.isPrefixOf_iff_prefix.mp hp)))
  have m4 : ¬("EXT.".toList.isPrefixOf s = true) := by
    intro hp
    exact m2 (List.isPrefixOf_iff_prefix.mpr
      ((by decide : "EXT".toList <+: "EXT.".toList).trans (List.isPrefixOf_iff_prefix.mp hp)))
  unfold dropIntExt
  rw [if_neg m3, if_neg m4, if_neg m1, if_neg m2]

theorem dropIntExt_mem {s : List Char} {c : Char} (h : c ∈ dropIntExt s) : c ∈ s := by
  unfold dropIntExt at h
  split_ifs at h with i1 i2 i3 i4
  all_goals
    first
    | exact h
    | exact (List.drop_suffix _ s).sublist.subset
        ((List.dropWhile_suffix _).sublist.subset h)

theorem map_eq_self_of_fixed {f : Char → Char} :
    ∀ (l : List Char), (∀ c ∈ l, f c = c) → l.map f = l := by
  intro l
  induction l with
  | nil => intro _; rfl
  | cons a as ih =>
    intro hf
    rw [List.map_cons, hf a (List.mem_cons_self a as),
      ih (fun c hc => hf c (List.mem_cons_of_mem a hc))]

/-! ### Master facts about normalizer output -/

theorem normalizeHeader_noQuote (x : List Char) :
    ∀ c ∈ normalizeHeader x, (!(c == '\x27' || c == '"')) = true := by
  intro c hc
  unfold normalizeHeader removeQuotes at hc
  exact (List.mem_filter.mp hc).2

theorem normalizeHeader_wsh (x : List Char) :
    ∀ c ∈ normalizeHeader x, isWsh c = true → c = ' ' := by
  intro c hc hw
  unfold normalizeHeader removeQuotes at hc
  have hc2 : c ∈ pyStrip (collapseWs (subParen (subTod (dropIntExt (pyStrip (x.map pyUpperChar)))))) :=
    List.mem_of_mem_filter hc
  have hc3 := pyStrip_mem hc2
  rcases collapseWs_mem _ c hc3 with h | ⟨-, h⟩
  · exact h
  · rw [h] at hw
    cases hw

theorem normalizeHeader_noPair (x : List Char) : NoPair (normalizeHeader x) := by
  unfold normalizeHeader removeQuotes
  refine NoPair.of_sublist (List.filter_sublist _) ?_
  refine NoPair.of_sublist (pyStrip_sublist _) ?_
  exact noPair_collapseWs (noPair_subParen _)

theorem normalizeHeader_upper (x : List Char) :
    ∀ c ∈ normalizeHeader x, pyUpperChar c = c := by
  intro c hc
  unfold normalizeHeader removeQuotes at hc
  have hc2 := pyStrip_mem (List.mem_of_mem_filter hc)
  rcases collapseWs_mem _ c hc2 with h | ⟨h, -⟩
  · rw [h]; decide
  · rcases subParen_mem h with h2 | h2
    swap
    · rw [h2]; decide
    have h3 := subTod_mem h2
    have h4 := pyStrip_mem (dropIntExt_mem h3)
    obtain ⟨d, -, hd⟩ := List.mem_map.mp h4
    rw [← hd]
    exact pyUpperChar_idem d

theorem normalizeHeader_hyphenFree (x : List Char) :
    ∀ c ∈ normalizeHeader x, isHyph c = false := by
  intro c hc
  by_contra h
  rw [Bool.not_eq_false] at h
  have hw : isWsh c = true := by
    simp [isHyph] at h
    rcases h with h | h <;> simp [isWsh, h]
  have := normalizeHeader_wsh x c hc hw
  subst this
  cases h

/-- C5 (amended): the pre-merge header normalizer
`_normalize_header_for_matching` is idempotent on every header whose
normalized form does not itself begin with an `INT`/`EXT` marker and has
no leading, trailing or doubled space (such spaces can only arise from the
final quote-removal step). The claim as stated — idempotence on every
input — fails because the anchored prefix strip can fire again on a
normalized header; see the counterexample. -/

theorem c5_normalize_idempotent_amended (x : List Char)
    (h1 : "INT".toList.isPrefixOf (normalizeHeader x) = false)
    (h2 : "EXT".toList.isPrefixOf (normalizeHeader x) = false)
    (h3 : noSpacePair (normalizeHeader x) = true)
    (h4 : (normalizeHeader x).head? ≠ some ' ')
    (h5 : (normalizeHeader x).getLast? ≠ some ' ') :
    normalizeHeader (normalizeHeader x) = normalizeHeader x := by
  have hwsh := normalizeHeader_wsh x
  have e1 : (normalizeHeader x).map pyUpperChar = normalizeHeader x :=
    map_eq_self_of_fixed _ (normalizeHeader_upper x)
  have e2 : pyStrip (normalizeHeader x) = normalizeHeader x := pyStrip_eq_self h4 h5 hwsh
  have e3 : dropIntExt (normalizeHeader x) = normalizeHeader x := dropIntExt_eq_self h1 h2
  have e4 : subTod (normalizeHeader x) = normalizeHeader x :=
    subTod_eq_self (normalizeHeader_hyphenFree x)
  have e5 : subParen (normalizeHeader x) = normalizeHeader x :=
    subParen_eq_self (normalizeHeader_noPair x)
  have e6 : collapseWs (normalizeHeader x) = normalizeHeader x :=
    collapseWs_eq_self _ hwsh h3
  have e7 : removeQuotes (normalizeHeader x) = normalizeHeader x := by
    unfold removeQuotes
    exact List.filter_eq_self.mpr (normalizeHeader_noQuote x)
  show removeQuotes (pyStrip (collapseWs (subParen (subTod (dropIntExt
    (pyStrip ((normalizeHeader x).map pyUpperChar))))))) = normalizeHeader x
  rw [e1, e2, e3, e4, e5, e6, e2, e7]

/-- C5, original statement refuted: the normalizer is not idempotent. On
"INT. INT. KITCHEN" one application yields "INT. KITCHEN" and the
anchored INT/EXT prefix strip fires again on the second application,
yielding "KITCHEN". -/

theorem c5_counterexample :
    normalizeHeader (normalizeHeader ("INT. INT. KITCHEN".toList)) ≠
      normalizeHeader ("INT. INT. KITCHEN".toList) := by decide

/-- Witness for the amended C5 theorem at a concrete header. -/

theorem c5_witness :
    ("INT".toList.isPrefixOf (normalizeHeader ("INT. KITCHEN - DAY".toList)) = false) ∧
    ("EXT".toList.isPrefixOf (normalizeHeader ("INT. KITCHEN - DAY".toList)) = false) ∧
    (noSpacePair (normalizeHeader ("INT. KITCHEN - DAY".toList)) = true) ∧
    ((normalizeHeader ("INT. KITCHEN - DAY".toList)).head? ≠ some ' ') ∧
    ((normalizeHeader ("INT. KITCHEN - DAY".toList)).getLast? ≠ some ' ') ∧
    normalizeHeader (normalizeHeader ("INT. KITCHEN - DAY".toList)) =
      normalizeHeader ("INT. KITCHEN - DAY".toList) :=
  ⟨by decide, by decide, by decide, by decide, by decide,
    c5_normalize_idempotent_amended _ (by decide) (by decide) (by decide) (by decide) (by decide)⟩

/-! ### Page-set bookkeeping -/

theorem mem_insSorted (n : Int) :
    ∀ (l : List Int) (x : Int), x ∈ insSorted n l ↔ x = n ∨ x ∈ l := by
  intro l
  induction l with
  | nil => intro x; simp [insSorted]
  | cons m ms ih =>
    intro x
    by_cases h1 : n < m
    · simp [insSorted, h1]
    · by_cases h2 : n = m
      · subst h2
        simp [insSorted, h1]
      · simp [insSorted, h1, h2, ih]
        tauto

theorem insSorted_sorted (n : Int) :
    ∀ (l : List Int), l.Pairwise (· < ·) → (insSorted n l).Pairwise (· < ·) := by
  intro l
  induction l with
  | nil => intro _; simp [insSorted]
  | cons m ms ih =>
    intro hp
    rw [List.pairwise_cons] at hp
    by_cases h1 : n < m
    · rw [insSorted, if_pos h1]
      rw [List.pairwise_cons]
      refine ⟨?_, List.pairwise_cons.mpr hp⟩
      intro b hb
      rcases List.mem_cons.mp hb with h | h
      · exact h ▸ h1
      · exact h1.trans (hp.1 b h)
    · by_cases h2 : n = m
      · rw [insSorted, if_neg h1, if_pos h2]
        exact List.pairwise_cons.mpr hp
      · rw [insSorted, if_neg h1, if_neg h2]
        rw [List.pairwise_cons]
        constructor
        · intro b hb
          rcases (mem_insSorted n ms b).mp hb with h | h
          · subst h
            omega
          · exact hp.1 b h
        · exact ih hp.2

theorem sortedSetUnion_toFinset (a b : List Int) :
    (sortedSetUnion a b).toFinset = a.toFinset ∪ b.toFinset := by
  have key : ∀ (l acc : List Int), (l.foldr insSorted acc).toFinset = l.toFinset ∪ acc.toFinset := by
    intro l
    induction l with
    | nil => intro acc; simp
    | cons x xs ih =>
      intro acc
      ext y
      rw [List.mem_toFinset]
      show y ∈ insSorted x (xs.foldr insSorted acc) ↔ _
      rw [mem_insSorted]
      have h2 : y ∈ xs.foldr insSorted acc ↔ y ∈ xs.toFinset ∪ acc.toFinset := by
        rw [← List.mem_toFinset, ih acc]
      rw [h2]
      simp
  unfold sortedSetUnion
  rw [key]
  simp

theorem sortedSetUnion_sorted (a b : List Int) :
    (sortedSetUnion a b).Pairwise (· < ·) := by
  have key : ∀ (l acc : List Int), acc.Pairwise (· < ·) →
      (l.foldr insSorted acc).Pairwise (· < ·) := by
    intro l
    induction l with
    | nil => intro acc h; exact h
    | cons x xs ih => intro acc h; exact insSorted_sorted x _ (ih acc h)
  exact key _ [] (by simp)

theorem pagesUnion_append (l1 l2 : List UniqueLocation) :
    pagesUnion (l1 ++ l2) = pagesUnion l1 ∪ pagesUnion l2 := by
  induction l1 with
  | nil => simp [pagesUnion]
  | cons a as ih => simp [pagesUnion, ih, Finset.union_assoc]

theorem pagesUnion_perm {l1 l2 : List UniqueLocation} (h : List.Perm l1 l2) :
    pagesUnion l1 = pagesUnion l2 := by
  induction h with
  | nil => rfl
  | cons x _ ih => simp [pagesUnion, ih]
  | swap x y l =>
    show pagesOf y ∪ (pagesOf x ∪ pagesUnion l) = pagesOf x ∪ (pagesOf y ∪ pagesUnion l)
    rw [← Finset.union_assoc, ← Finset.union_assoc, Finset.union_comm (pagesOf y) (pagesOf x)]
  | trans _ _ ih1 ih2 => exact ih1.trans ih2

theorem flatVals_alAppend {K V : Type} [DecidableEq K] (k : K) (v : V) :
    ∀ (g : List (K × List V)), List.Perm (flatVals (alAppend k v g)) (v :: flatVals g) := by
  intro g
  induction g with
  | nil => simp [alAppend, flatVals]
  | cons p rest ih =>
    obtain ⟨k1, g1⟩ := p
    by_cases hk : k = k1
    · rw [alAppend, if_pos hk]
      show List.Perm ((g1 ++ [v]) ++ flatVals rest) (v :: (g1 ++ flatVals rest))
      rw [List.append_assoc]
      exact List.perm_middle
    · rw [alAppend, if_neg hk]
      show List.Perm (g1 ++ flatVals (alAppend k v rest)) (v :: (g1 ++ flatVals rest))
      exact (ih.append_left g1).trans List.perm_middle

theorem length_le_flatVals {K V : Type} :
    ∀ (g : List (K × List V)), (∀ p ∈ g, p.2 ≠ []) → g.length ≤ (flatVals g).length := by
  intro g
  induction g with
  | nil => intro _; simp
  | cons p ps ih =>
    intro h
    have h1 : p.2 ≠ [] := h p (List.mem_cons_self _ _)
    have h2 : 1 ≤ p.2.length := by
      cases hp : p.2 with
      | nil => exact absurd hp h1
      | cons x xs => simp
    have h3 := ih (fun q hq => h q (List.mem_cons_of_mem _ hq))
    show (p :: ps).length ≤ (p.2 ++ flatVals ps).length
    simp only [List.length_cons, List.length_append]
    omega

theorem foldl_alAppend_flat {K V : Type} [DecidableEq K] (key : V → K) :
    ∀ (ls : List V) (acc : List (K × List V)),
      List.Perm (flatVals (ls.foldl (fun g v => alAppend (key v) v g) acc))
        (ls ++ flatVals acc) := by
  intro ls
  induction ls with
  | nil => intro acc; simp
  | cons a as ih =>
    intro acc
    show List.Perm (flatVals (as.foldl _ (alAppend (key a) a acc))) (a :: (as ++ flatVals acc))
    have h1 := ih (alAppend (key a) a acc)
    have h2 : List.Perm (as ++ flatVals (alAppend (key a) a acc)) (as ++ (a :: flatVals acc)) :=
      (flatVals_alAppend (key a) a acc).append_left as
    exact (h1.trans h2).trans List.perm_middle

theorem alAppend_nonempty {K V : Type} [DecidableEq K] (k : K) (v : V) :
    ∀ (g : List (K × List V)), (∀ p ∈ g, p.2 ≠ []) → ∀ p ∈ alAppend k v g, p.2 ≠ [] := by
  intro g
  induction g with
  | nil =>
    intro _ p hp
    simp [alAppend] at hp
    subst hp
    simp
  | cons q rest ih =>
    obtain ⟨k1, g1⟩ := q
    intro h p hp
    by_cases hk : k = k1
    · rw [alAppend, if_pos hk] at hp
      rcases List.mem_cons.mp hp with h2 | h2
      · subst h2; simp
      · exact h p (List.mem_cons_of_mem _ h2)
    · rw [alAppend, if_neg hk] at hp
      rcases List.mem_cons.mp hp with h2 | h2
      · subst h2
        exact h (k1, g1) (List.mem_cons_self _ _)
      · exact ih (fun q hq => h q (List.mem_cons_of_mem _ hq)) p h2

theorem foldl_alAppend_nonempty {K V : Type} [DecidableEq K] (key : V → K) :
    ∀ (ls : List V) (acc : List (K × List V)), (∀ p ∈ acc, p.2 ≠ []) →
      ∀ p ∈ ls.foldl (fun g v => alAppend (key v) v g) acc, p.2 ≠ [] := by
  intro ls
  induction ls with
  | nil => intro acc h; exact h
  | cons a as ih =>
    intro acc h
    exact ih (alAppend (key a) a acc) (alAppend_nonempty (key a) a acc h)

theorem alAppend_notMem {K V : Type} [DecidableEq K] (k : K) (v : V) :
    ∀ (g : List (K × List V)), k ∉ g.map Prod.fst → alAppend k v g = g ++ [(k, [v])] := by
  intro g
  induction g with
  | nil => intro _; rfl
  | cons p rest ih =>
    obtain ⟨k1, g1⟩ := p
    intro h
    simp only [List.map_cons, List.mem_cons] at h
    push_neg at h
    rw [alAppend, if_neg h.1]
    rw [ih h.2]
    simp

theorem foldl_alAppend_fresh {K V : Type} [DecidableEq K] (key : V → K) :
    ∀ (ls : List V) (acc : List (K × List V)),
      (∀ v ∈ ls, key v ∉ acc.map Prod.fst) → (ls.map key).Nodup →
      ls.foldl (fun g v => alAppend (key v) v g) acc =
        acc ++ ls.map (fun v => (key v, [v])) := by
  intro ls
  induction ls with
  | nil => intro acc _ _; simp
  | cons a as ih =>
    intro acc hfresh hnd
    simp only [List.map_cons, List.nodup_cons] at hnd
    show as.foldl _ (alAppend (key a) a acc) = _
    rw [alAppend_notMem (key a) a acc (hfresh a (List.mem_cons_self _ _))]
    rw [ih (acc ++ [(key a, [a])]) ?_ hnd.2]
    · simp
    · intro v hv
      simp only [List.map_append, List.mem_append]
      push_neg
      constructor
      · exact hfresh v (List.mem_cons_of_mem _ hv)
      · simp only [List.map_cons, List.map_nil, List.mem_singleton]
        intro hc
        exact hnd.1 (hc ▸ List.mem_map_of_mem key hv)

theorem preStep_fst :
    ∀ (gs : List (List Char × List UniqueLocation)) (acc : List UniqueLocation × Nat),
      (gs.foldl preStep acc).1 = acc.1 ++ groupResCat preMergeGroup gs := by
  intro gs
  induction gs with
  | nil => intro acc; simp [groupResCat]
  | cons p ps ih =>
    intro acc
    show (ps.foldl preStep (preStep acc p)).1 = _
    rw [ih (preStep acc p)]
    have h1 : (preStep acc p).1 = acc.1 ++ preMergeGroup p := by
      unfold preStep preMergeGroup
      by_cases hl : p.2.length = 1
      · simp [hl]
      · simp only [hl, if_false]
        cases hs : sortByKeyDesc (fun l => l.scene_header.length) p.2 with
        | nil => simp
        | cons c rest => simp
    rw [h1, List.append_assoc]
    rfl

theorem preAbsorb_fold_pages :
    ∀ (rest : List UniqueLocation) (c : UniqueLocation),
      pagesOf (rest.foldl preAbsorb c) = pagesOf c ∪ pagesUnion rest := by
  intro rest
  induction rest with
  | nil => intro c; simp [pagesUnion]
  | cons r rs ih =>
    intro c
    show pagesOf (rs.foldl preAbsorb (preAbsorb c r)) = _
    rw [ih (preAbsorb c r)]
    have h1 : pagesOf (preAbsorb c r) = pagesOf c ∪ pagesOf r := by
      show (sortedSetUnion c.page_numbers r.page_numbers).toFinset = _
      exact sortedSetUnion_toFinset _ _
    rw [h1, pagesUnion, Finset.union_assoc]

theorem sortDesc_nonempty {p2 : List UniqueLocation} (h : p2 ≠ []) :
    sortByKeyDesc (fun l => l.scene_header.length) p2 ≠ [] := by
  intro hc
  have := (sortByKeyDesc_perm (fun l => l.scene_header.length) p2).length_eq
  rw [hc] at this
  simp at this
  exact h (List.length_eq_zero.mp this.symm)

theorem preMergeGroup_length {p : List Char × List UniqueLocation} (h : p.2 ≠ []) :
    (preMergeGroup p).length = 1 := by
  unfold preMergeGroup
  by_cases hl : p.2.length = 1
  · simp [hl]
  · simp only [hl, if_false]
    cases hs : sortByKeyDesc (fun l => l.scene_header.length) p.2 with
    | nil => exact absurd hs (sortDesc_nonempty h)
    | cons c rest => simp

theorem preMergeGroup_pages {p : List Char × List UniqueLocation} (h : p.2 ≠ []) :
    pagesUnion (preMergeGroup p) = pagesUnion p.2 := by
  unfold preMergeGroup
  by_cases hl : p.2.length = 1
  · simp [hl]
  · simp only [hl, if_false]
    cases hs : sortByKeyDesc (fun l => l.scene_header.length) p.2 with
    | nil => exact absurd hs (sortDesc_nonempty h)
    | cons c rest =>
      show pagesOf (rest.foldl preAbsorb c) ∪ ∅ = pagesUnion p.2
      rw [Finset.union_empty, preAbsorb_fold_pages]
      have h2 : pagesOf c ∪ pagesUnion rest = pagesUnion (c :: rest) := rfl
      rw [h2, ← hs]
      exact pagesUnion_perm (sortByKeyDesc_perm _ _)

theorem groupResCat_pre_pages :
    ∀ (gs : List (List Char × List UniqueLocation)), (∀ p ∈ gs, p.2 ≠ []) →
      pagesUnion (groupResCat preMergeGroup gs) = pagesUnion (flatVals gs) := by
  intro gs
  induction gs with
  | nil => intro _; rfl
  | cons p ps ih =>
    intro h
    show pagesUnion (preMergeGroup p ++ groupResCat preMergeGroup ps) = pagesUnion (p.2 ++ flatVals ps)
    rw [pagesUnion_append, pagesUnion_append,
      preMergeGroup_pages (h p (List.mem_cons_self _ _)),
      ih (fun q hq => h q (List.mem_cons_of_mem _ hq))]

theorem groupResCat_pre_length :
    ∀ (gs : List (List Char × List UniqueLocation)), (∀ p ∈ gs, p.2 ≠ []) →
      (groupResCat preMergeGroup gs).length = gs.length := by
  intro gs
  induction gs with
  | nil => intro _; rfl
  | cons p ps ih =>
    intro h
    show (preMergeGroup p ++ groupResCat preMergeGroup ps).length = ps.length + 1
    rw [List.length_append, preMergeGroup_length (h p (List.mem_cons_self _ _)),
      ih (fun q hq => h q (List.mem_cons_of_mem _ hq))]
    omega

theorem preGroupFold_nonempty (locs : List UniqueLocation) :
    ∀ p ∈ preGroupFold locs, p.2 ≠ [] := by
  unfold preGroupFold
  intro p hp
  exact foldl_alAppend_nonempty _ locs [] (by simp) p hp

theorem preGroupFold_flat (locs : List UniqueLocation) :
    List.Perm (flatVals (preGroupFold locs)) locs := by
  have := foldl_alAppend_flat (fun l => normKey l.scene_header) locs []
  simpa [flatVals] using this

theorem preMerge_pages (locs : List UniqueLocation) :
    pagesUnion (preMerge locs).1 = pagesUnion locs := by
  unfold preMerge
  have h0 := pagesUnion_perm (sortByKey_perm (firstPageOr 0) (((preGroupFold locs).foldl preStep ([], 0)).1))
  rw [h0, preStep_fst]
  show pagesUnion ([] ++ groupResCat preMergeGroup (preGroupFold locs)) = _
  rw [List.nil_append, groupResCat_pre_pages _ (preGroupFold_nonempty locs),
    pagesUnion_perm (preGroupFold_flat locs)]

theorem preMerge_length (locs : List UniqueLocation) :
    (preMerge locs).1.length ≤ locs.length := by
  unfold preMerge
  have h0 := (sortByKey_perm (firstPageOr 0) (((preGroupFold locs).foldl preStep ([], 0)).1)).length_eq
  rw [h0, preStep_fst]
  show ([] ++ groupResCat preMergeGroup (preGroupFold locs)).length ≤ _
  rw [List.nil_append, groupResCat_pre_length _ (preGroupFold_nonempty locs)]
  have h1 := length_le_flatVals (preGroupFold locs) (preGroupFold_nonempty locs)
  have h2 := (preGroupFold_flat locs).length_eq
  omega

/-! ### Name-pass merge (`_merge_locations`): cardinality, pages, headers -/

theorem mergeInto_pages (v loc : UniqueLocation) :
    pagesOf (mergeInto v loc) = pagesOf v ∪ loc.page_numbers.toFinset := by
  show (sortedSetUnion v.page_numbers loc.page_numbers).toFinset = _
  exact sortedSetUnion_toFinset _ _

theorem mergeInto_header (v loc : UniqueLocation) :
    (mergeInto v loc).scene_header = v.scene_header := rfl

theorem mergeUpd_pages (k : String) (loc : UniqueLocation) :
    ∀ (g : List (String × UniqueLocation)),
      pagesUnion ((mergeUpd k loc g).map Prod.snd) =
        pagesUnion (g.map Prod.snd) ∪ loc.page_numbers.toFinset := by
  intro g
  induction g with
  | nil =>
    show pagesUnion [_] = pagesUnion [] ∪ _
    simp [pagesUnion, pagesOf]
  | cons q rest ih =>
    obtain ⟨k1, v⟩ := q
    by_cases hk : k = k1
    · rw [mergeUpd, if_pos hk]
      show pagesOf (mergeInto v loc) ∪ pagesUnion (rest.map Prod.snd) = _
      rw [mergeInto_pages]
      show _ = pagesOf v ∪ pagesUnion (rest.map Prod.snd) ∪ loc.page_numbers.toFinset
      rw [Finset.union_assoc, Finset.union_comm loc.page_numbers.toFinset,
        ← Finset.union_assoc, Finset.union_assoc]
    · rw [mergeUpd, if_neg hk]
      show pagesOf v ∪ pagesUnion ((mergeUpd k loc rest).map Prod.snd) = _
      rw [ih]
      show _ = pagesOf v ∪ pagesUnion (rest.map Prod.snd) ∪ loc.page_numbers.toFinset
      rw [Finset.union_assoc]

theorem mergeUpd_length (k : String) (loc : UniqueLocation) :
    ∀ (g : List (String × UniqueLocation)), (mergeUpd k loc g).length ≤ g.length + 1 := by
  intro g
  induction g with
  | nil => simp [mergeUpd]
  | cons q rest ih =>
    obtain ⟨k1, v⟩ := q
    by_cases hk : k = k1
    · rw [mergeUpd, if_pos hk]; simp
    · rw [mergeUpd, if_neg hk]
      simp only [List.length_cons]
      omega

theorem mergeUpd_header_inv (k : String) (loc : UniqueLocation) :
    ∀ (g : List (String × UniqueLocation)), (∀ p ∈ g, p.2.scene_header = p.1) →
      ∀ p ∈ mergeUpd k loc g, p.2.scene_header = p.1 := by
  intro g
  induction g with
  | nil =>
    intro _ p hp
    simp [mergeUpd] at hp
    subst hp
    rfl
  | cons q rest ih =>
    obtain ⟨k1, v⟩ := q
    intro h p hp
    by_cases hk : k = k1
    · rw [mergeUpd, if_pos hk] at hp
      rcases List.mem_cons.mp hp with h2 | h2
      · subst h2
        show (mergeInto v loc).scene_header = k1
        rw [mergeInto_header]
        exact h (k1, v) (List.mem_cons_self _ _)
      · exact h p (List.mem_cons_of_mem _ h2)
    · rw [mergeUpd, if_neg hk] at hp
      rcases List.mem_cons.mp hp with h2 | h2
      · subst h2
        exact h (k1, v) (List.mem_cons_self _ _)
      · exact ih (fun q hq => h q (List.mem_cons_of_mem _ hq)) p h2

theorem mergeUpd_keys_mem (k : String) (loc : UniqueLocation) :
    ∀ (g : List (String × UniqueLocation)) (x : String),
      x ∈ (mergeUpd k loc g).map Prod.fst → x ∈ g.map Prod.fst ∨ x = k := by
  intro g
  induction g with
  | nil =>
    intro x hx
    simp [mergeUpd] at hx
    exact Or.inr hx
  | cons q rest ih =>
    obtain ⟨k1, v⟩ := q
    intro x hx
    by_cases hk : k = k1
    · rw [mergeUpd, if_pos hk] at hx
      simp only [List.map_cons, List.mem_cons] at hx ⊢
      tauto
    · rw [mergeUpd, if_neg hk] at hx
      simp only [List.map_cons, List.mem_cons] at hx ⊢
      rcases hx with h2 | h2
      · tauto
      · rcases ih x h2 with h3 | h3
        · tauto
        · tauto

theorem mergeUpd_nodup (k : String) (loc : UniqueLocation) :
    ∀ (g : List (String × UniqueLocation)), (g.map Prod.fst).Nodup →
      ((mergeUpd k loc g).map Prod.fst).Nodup := by
  intro g
  induction g with
  | nil => intro _; simp [mergeUpd]
  | cons q rest ih =>
    obtain ⟨k1, v⟩ := q
    intro h
    simp only [List.map_cons, List.nodup_cons] at h
    by_cases hk : k = k1
    · rw [mergeUpd, if_pos hk]
      simp only [List.map_cons, List.nodup_cons]
      exact h
    · rw [mergeUpd, if_neg hk]
      simp only [List.map_cons, List.nodup_cons]
      refine ⟨?_, ih h.2⟩
      intro hc
      rcases mergeUpd_keys_mem k loc rest k1 hc with h2 | h2
      · exact h.1 h2
      · exact hk h2.symm

theorem mergeFold_pages (hm : List (String × String)) :
    ∀ (locs : List UniqueLocation) (acc : List (String × UniqueLocation)),
      pagesUnion ((locs.foldl (mergeStep hm) acc).map Prod.snd) =
        pagesUnion (acc.map Prod.snd) ∪ pagesUnion locs := by
  intro locs
  induction locs with
  | nil => intro acc; simp [pagesUnion]
  | cons a as ih =>
    intro acc
    show pagesUnion ((as.foldl (mergeStep hm) (mergeStep hm acc a)).map Prod.snd) = _
    rw [ih]
    show pagesUnion ((mergeUpd _ a acc).map Prod.snd) ∪ pagesUnion as = _
    rw [mergeUpd_pages]
    show _ = pagesUnion (acc.map Prod.snd) ∪ (pagesOf a ∪ pagesUnion as)
    rw [Finset.union_assoc]
    rfl

theorem mergeFold_length (hm : List (String × String)) :
    ∀ (locs : List UniqueLocation) (acc : List (String × UniqueLocation)),
      (locs.foldl (mergeStep hm) acc).length ≤ acc.length + locs.length := by
  intro locs
  induction locs with
  | nil => intro acc; simp
  | cons a as ih =>
    intro acc
    have h1 := ih (mergeStep hm acc a)
    have h2 : (mergeStep hm acc a).length ≤ acc.length + 1 := mergeUpd_length _ a acc
    simp only [List.length_cons]
    calc (as.foldl (mergeStep hm) (mergeStep hm acc a)).length
        ≤ (mergeStep hm acc a).length + as.length := h1
      _ ≤ acc.length + 1 + as.length := by omega
      _ = acc.length + (as.length + 1) := by omega

theorem mergeFold_header_inv (hm : List (String × String)) :
    ∀ (locs : List UniqueLocation) (acc : List (String × UniqueLocation)),
      (∀ p ∈ acc, p.2.scene_header = p.1) →
      ∀ p ∈ locs.foldl (mergeStep hm) acc, p.2.scene_header = p.1 := by
  intro locs
  induction locs with
  | nil => intro acc h; exact h
  | cons a as ih =>
    intro acc h
    exact ih (mergeStep hm acc a) (mergeUpd_header_inv _ a acc h)

theorem mergeFold_nodup (hm : List (String × String)) :
    ∀ (locs : List UniqueLocation) (acc : List (String × UniqueLocation)),
      (acc.map Prod.fst).Nodup →
      ((locs.foldl (mergeStep hm) acc).map Prod.fst).Nodup := by
  intro locs
  induction locs with
  | nil => intro acc h; exact h
  | cons a as ih =>
    intro acc h
    exact ih (mergeStep hm acc a) (mergeUpd_nodup _ a acc h)

theorem mergeLocations_pages (hm : List (String × String)) (locs : List UniqueLocation) :
    pagesUnion (mergeLocations hm locs) = pagesUnion locs := by
  unfold mergeLocations
  rw [pagesUnion_perm (sortByKey_perm _ _), mergeFold_pages]
  show pagesUnion [] ∪ _ = _
  rw [show pagesUnion [] = ∅ from rfl, Finset.empty_union]

theorem mergeLocations_length (hm : List (String × String)) (locs : List UniqueLocation) :
    (mergeLocations hm locs).length ≤ locs.length := by
  unfold mergeLocations
  rw [(sortByKey_perm _ _).length_eq, List.length_map]
  have := mergeFold_length hm locs []
  simpa using this

theorem mergeLocations_headers_nodup (hm : List (String × String)) (locs : List UniqueLocation) :
    ((mergeLocations hm locs).map UniqueLocation.scene_header).Nodup := by
  unfold mergeLocations
  have hperm := (sortByKey_perm (firstPageOr 0)
    ((locs.foldl (mergeStep hm) []).map Prod.snd)).map UniqueLocation.scene_header
  rw [List.Perm.nodup_iff hperm]
  have hinv := mergeFold_header_inv hm locs [] (by simp)
  have heq : ((locs.foldl (mergeStep hm) []).map Prod.snd).map UniqueLocation.scene_header =
      (locs.foldl (mergeStep hm) []).map Prod.fst := by
    rw [List.map_map]
    refine List.map_congr_left ?_
    intro p hp
    exact hinv p hp
  rw [heq]
  exact mergeFold_nodup hm locs [] (by simp)

/-! ### The context pass on a distinct-header input -/

theorem groupByHeader_of_nodup (ls : List UniqueLocation)
    (h : (ls.map UniqueLocation.scene_header).Nodup) :
    groupByHeader ls = ls.map (fun l => (l.scene_header, [l])) := by
  unfold groupByHeader
  exact foldl_alAppend_fresh _ ls [] (by simp) h

theorem contextPass_of_nodup (locs : List UniqueLocation) (nc : List String)
    (dec : Option (List (String × String)))
    (h : (locs.map UniqueLocation.scene_header).Nodup) :
    contextPass locs nc dec = locs := by
  unfold contextPass
  by_cases h1 : nc.isEmpty
  · rw [if_pos h1]
  · rw [if_neg h1]
    have hempty : (groupsToCheck locs nc).isEmpty = true := by
      unfold groupsToCheck
      have hnd : ((locs.filter (fun l => nc.contains l.scene_header)).map
          UniqueLocation.scene_header).Nodup :=
        List.Nodup.sublist ((List.filter_sublist locs).map _) h
      rw [groupByHeader_of_nodup _ hnd]
      simp
      intro a b x hx hnc ha hb
      subst hb
      simp
    rw [if_pos hempty]

/-- C9: `_merge_locations` keys its result dict by canonical header, so
the surviving locations after the name pass have pairwise-distinct
headers; consequently pass 2's exact-header grouping never yields a group
with more than one member and the context pass returns its input
unchanged, for every flag list and every decision set. -/

theorem c9_context_pass_identity (hm : List (String × String)) (locs : List UniqueLocation)
    (nc : List String) (dec : Option (List (String × String))) :
    ((mergeLocations hm locs).map UniqueLocation.scene_header).Nodup ∧
      contextPass (mergeLocations hm locs) nc dec = mergeLocations hm locs :=
  ⟨mergeLocations_headers_nodup hm locs,
   contextPass_of_nodup _ nc dec (mergeLocations_headers_nodup hm locs)⟩

theorem tgStep_perm (acc : List (String × List UniqueLocation) × List UniqueLocation)
    (a : UniqueLocation) :
    List.Perm ((tgStep acc a).2 ++ flatVals (tgStep acc a).1)
      (a :: (acc.2 ++ flatVals acc.1)) := by
  cases hg : getLocationType a.scene_header with
  | some t =>
    simp only [tgStep, hg]
    exact ((flatVals_alAppend t a acc.1).append_left acc.2).trans List.perm_middle
  | none =>
    simp only [tgStep, hg]
    rw [List.append_assoc]
    exact List.perm_middle

theorem tgFold_perm :
    ∀ (locs : List UniqueLocation) (acc : List (String × List UniqueLocation) × List UniqueLocation),
      List.Perm ((locs.foldl tgStep acc).2 ++ flatVals (locs.foldl tgStep acc).1)
        ((acc.2 ++ flatVals acc.1) ++ locs) := by
  intro locs
  induction locs with
  | nil => intro acc; rw [List.append_nil]; exact List.Perm.refl _
  | cons a as ih =>
    intro acc
    have h1 := ih (tgStep acc a)
    have h2 := (tgStep_perm acc a).append_right as
    exact (h1.trans h2).trans List.perm_middle.symm

theorem tgFold_nonempty :
    ∀ (locs : List UniqueLocation) (acc : List (String × List UniqueLocation) × List UniqueLocation),
      (∀ p ∈ acc.1, p.2 ≠ []) → ∀ p ∈ (locs.foldl tgStep acc).1, p.2 ≠ [] := by
  intro locs
  induction locs with
  | nil => intro acc h; exact h
  | cons a as ih =>
    intro acc h
    refine ih (tgStep acc a) ?_
    cases hg : getLocationType a.scene_header with
    | some t =>
      simp only [tgStep, hg]
      exact alAppend_nonempty t a acc.1 h
    | none =>
      simp only [tgStep, hg]
      exact h

theorem typeResStep_fst :
    ∀ (gs : List (String × List UniqueLocation)) (acc : List UniqueLocation × Nat),
      (gs.foldl typeResStep acc).1 = acc.1 ++ groupResCat typeMergeGroupRes gs := by
  intro gs
  induction gs with
  | nil => intro acc; simp [groupResCat]
  | cons p ps ih =>
    intro acc
    show (ps.foldl typeResStep (typeResStep acc p)).1 = _
    rw [ih (typeResStep acc p)]
    have h1 : (typeResStep acc p).1 = acc.1 ++ typeMergeGroupRes p := by
      unfold typeResStep typeMergeGroupRes
      by_cases hl : p.2.length = 1
      · simp [hl]
      · simp [hl]
    rw [h1, List.append_assoc]
    rfl

theorem typeStepFold_header :
    ∀ (rest : List UniqueLocation) (z : UniqueLocation × String),
      ((rest.foldl typeStep z).1).scene_header = z.1.scene_header := by
  intro rest
  induction rest with
  | nil => intro z; rfl
  | cons r rs ih => intro z; rw [List.foldl_cons, ih (typeStep z r)]; rfl

theorem typeStepFold_occ :
    ∀ (rest : List UniqueLocation) (z : UniqueLocation × String),
      ((rest.foldl typeStep z).1).occurrences = z.1.occurrences ++ occsCat rest := by
  intro rest
  induction rest with
  | nil => intro z; simp [occsCat]
  | cons r rs ih =>
    intro z
    rw [List.foldl_cons, ih (typeStep z r)]
    show (z.1.occurrences ++ r.occurrences) ++ occsCat rs = _
    rw [List.append_assoc]
    rfl

theorem typeStepFold_pages :
    ∀ (rest : List UniqueLocation) (z : UniqueLocation × String),
      pagesOf ((rest.foldl typeStep z).1) = pagesOf z.1 ∪ pagesUnion rest := by
  intro rest
  induction rest with
  | nil => intro z; simp [pagesUnion]
  | cons r rs ih =>
    intro z
    rw [List.foldl_cons, ih (typeStep z r)]
    have h1 : pagesOf (typeStep z r).1 = pagesOf z.1 ∪ pagesOf r := by
      show (sortedSetUnion z.1.page_numbers r.page_numbers).toFinset = _
      exact sortedSetUnion_toFinset _ _
    rw [h1, pagesUnion, Finset.union_assoc]

theorem typeStepFold_tod :
    ∀ (rest : List UniqueLocation) (z : UniqueLocation × String),
      ((rest.foldl typeStep z).1).time_of_day =
        if rest.all (fun l => l.time_of_day == z.1.time_of_day) then z.1.time_of_day
        else "both" := by
  intro rest
  induction rest with
  | nil => intro z; simp
  | cons r rs ih =>
    intro z
    rw [List.foldl_cons, ih (typeStep z r)]
    by_cases he : z.1.time_of_day = r.time_of_day
    · have h1 : (typeStep z r).1.time_of_day = z.1.time_of_day := by
        simp [typeStep, he]
      rw [h1]
      have h2 : (r.time_of_day == z.1.time_of_day) = true := by
        simp [beq_iff_eq, he.symm]
      simp [List.all_cons, h2]
    · have h1 : (typeStep z r).1.time_of_day = "both" := by
        simp [typeStep, he]
      rw [h1]
      have h2 : (r.time_of_day == z.1.time_of_day) = false := by
        simp [beq_iff_eq]
        exact fun hh => he hh.symm
      simp only [List.all_cons, h2, Bool.false_and, if_false]
      split <;> rfl

theorem typeStepFold_ie :
    ∀ (rest : List UniqueLocation) (z : UniqueLocation × String),
      (rest.foldl typeStep z).2 =
        if rest.all (fun l => l.interior_exterior == z.2) then z.2 else "both" := by
  intro rest
  induction rest with
  | nil => intro z; simp
  | cons r rs ih =>
    intro z
    rw [List.foldl_cons, ih (typeStep z r)]
    by_cases he : z.2 = r.interior_exterior
    · have h1 : (typeStep z r).2 = z.2 := by
        simp [typeStep, he]
      rw [h1]
      have h2 : (r.interior_exterior == z.2) = true := by
        simp [beq_iff_eq, he.symm]
      simp [List.all_cons, h2]
    · have h1 : (typeStep z r).2 = "both" := by
        simp [typeStep, he]
      rw [h1]
      have h2 : (r.interior_exterior == z.2) = false := by
        simp [beq_iff_eq]
        exact fun hh => he hh.symm
      simp only [List.all_cons, h2, Bool.false_and, if_false]
      split <;> rfl

theorem typeStepFold_sorted :
    ∀ (rest : List UniqueLocation) (z : UniqueLocation × String), rest ≠ [] →
      ((rest.foldl typeStep z).1).page_numbers.Pairwise (· < ·) := by
  intro rest
  induction rest with
  | nil => intro z h; exact absurd rfl h
  | cons r rs ih =>
    intro z _
    cases hrs : rs with
    | nil =>
      show ((typeStep z r).1).page_numbers.Pairwise (· < ·)
      exact sortedSetUnion_sorted _ _
    | cons r2 rs2 =>
      rw [List.foldl_cons]
      exact hrs ▸ ih (typeStep z r) (by simp [hrs])

theorem sortKey_ne_nil {l : List UniqueLocation} (k : UniqueLocation → Int) (h : l ≠ []) :
    sortByKey k l ≠ [] := by
  intro hc
  have := (sortByKey_perm k l).length_eq
  rw [hc] at this
  simp at this
  exact h (List.length_eq_zero.mp this.symm)

theorem mergeTypeGroup_pages (t : String) {p2 : List UniqueLocation} (h : p2 ≠ []) :
    pagesOf (mergeTypeGroup t p2) = pagesUnion p2 := by
  unfold mergeTypeGroup
  cases hs : sortByKey (firstPageOr 999) p2 with
  | nil => exact absurd hs (sortKey_ne_nil _ h)
  | cons c rest =>
    show pagesOf ((rest.foldl typeStep (c, c.interior_exterior)).1) = _
    rw [typeStepFold_pages]
    have h2 : pagesOf c ∪ pagesUnion rest = pagesUnion (c :: rest) := rfl
    rw [h2, ← hs]
    exact pagesUnion_perm (sortByKey_perm _ _)

theorem typeMergeGroupRes_pages {p : String × List UniqueLocation} (h : p.2 ≠ []) :
    pagesUnion (typeMergeGroupRes p) = pagesUnion p.2 := by
  unfold typeMergeGroupRes
  by_cases hl : p.2.length = 1
  · simp [hl]
  · simp only [hl, if_false]
    show pagesOf (mergeTypeGroup p.1 p.2) ∪ ∅ = _
    rw [Finset.union_empty, mergeTypeGroup_pages _ h]

theorem typeMergeGroupRes_length (p : String × List UniqueLocation) :
    (typeMergeGroupRes p).length = 1 := by
  unfold typeMergeGroupRes
  by_cases hl : p.2.length = 1
  · simp [hl]
  · simp [hl]

theorem groupResCat_type_pages :
    ∀ (gs : List (String × List UniqueLocation)), (∀ p ∈ gs, p.2 ≠ []) →
      pagesUnion (groupResCat typeMergeGroupRes gs) = pagesUnion (flatVals gs) := by
  intro gs
  induction gs with
  | nil => intro _; rfl
  | cons p ps ih =>
    intro h
    show pagesUnion (typeMergeGroupRes p ++ groupResCat typeMergeGroupRes ps) =
      pagesUnion (p.2 ++ flatVals ps)
    rw [pagesUnion_append, pagesUnion_append,
      typeMergeGroupRes_pages (h p (List.mem_cons_self _ _)),
      ih (fun q hq => h q (List.mem_cons_of_mem _ hq))]

theorem groupResCat_type_length :
    ∀ (gs : List (String × List UniqueLocation)), (∀ p ∈ gs, p.2 ≠ []) →
      (groupResCat typeMergeGroupRes gs).length = gs.length := by
  intro gs
  induction gs with
  | nil => intro _; rfl
  | cons p ps ih =>
    intro h
    show (typeMergeGroupRes p ++ groupResCat typeMergeGroupRes ps).length = ps.length + 1
    rw [List.length_append, typeMergeGroupRes_length p,
      ih (fun q hq => h q (List.mem_cons_of_mem _ hq))]
    omega

theorem mergeByLocationType_pages (locs : List UniqueLocation) :
    pagesUnion (mergeByLocationType locs).1 = pagesUnion locs := by
  unfold mergeByLocationType
  rw [pagesUnion_perm (sortByKey_perm _ _), typeResStep_fst]
  show pagesUnion ((typeGroupFold locs).2 ++ groupResCat typeMergeGroupRes (typeGroupFold locs).1) = _
  have hne : ∀ p ∈ (typeGroupFold locs).1, p.2 ≠ [] :=
    tgFold_nonempty locs ([], []) (by simp)
  rw [pagesUnion_append, groupResCat_type_pages _ hne, ← pagesUnion_append]
  have hperm := tgFold_perm locs ([], [])
  have := pagesUnion_perm hperm
  simpa [flatVals] using this

theorem mergeByLocationType_length (locs : List UniqueLocation) :
    (mergeByLocationType locs).1.length ≤ locs.length := by
  unfold mergeByLocationType
  rw [(sortByKey_perm _ _).length_eq, typeResStep_fst]
  show ((typeGroupFold locs).2 ++ groupResCat typeMergeGroupRes (typeGroupFold locs).1).length ≤ _
  have hne : ∀ p ∈ (typeGroupFold locs).1, p.2 ≠ [] :=
    tgFold_nonempty locs ([], []) (by simp)
  rw [List.length_append, groupResCat_type_length _ hne]
  have h1 := length_le_flatVals (typeGroupFold locs).1 hne
  have h2 := (tgFold_perm locs ([], [])).length_eq
  have h3 : (([] ++ flatVals ([] : List (String × List UniqueLocation))) ++ locs).length =
      locs.length := by simp [flatVals]
  rw [h3, List.length_append] at h2
  show (typeGroupFold locs).2.length + (typeGroupFold locs).1.length ≤ locs.length
  unfold typeGroupFold at h1 ⊢
  omega

/-! ### Claim theorems for the dedup pipeline -/

theorem contextPass_length_pages (locs : List UniqueLocation) (nc : List String)
    (dec : Option (List (String × String))) :
    (contextPass locs nc dec).length ≤ locs.length ∧
      pagesUnion (contextPass locs nc dec) = pagesUnion locs := by
  unfold contextPass
  by_cases h1 : nc.isEmpty
  · rw [if_pos h1]; exact ⟨le_rfl, rfl⟩
  · rw [if_neg h1]
    by_cases h2 : (groupsToCheck locs nc).isEmpty
    · rw [if_pos h2]; exact ⟨le_rfl, rfl⟩
    · rw [if_neg h2]
      cases dec with
      | none => exact ⟨le_rfl, rfl⟩
      | some d =>
        show ((if (buildContextMap d (groupsToCheck locs nc)).isEmpty then locs
            else mergeLocations (buildContextMap d (groupsToCheck locs nc)) locs).length ≤
              locs.length) ∧
          pagesUnion (if (buildContextMap d (groupsToCheck locs nc)).isEmpty then locs
            else mergeLocations (buildContextMap d (groupsToCheck locs nc)) locs) =
            pagesUnion locs
        by_cases h3 : (buildContextMap d (groupsToCheck locs nc)).isEmpty
        · rw [if_pos h3]; exact ⟨le_rfl, rfl⟩
        · rw [if_neg h3]
          exact ⟨mergeLocations_length _ _, mergeLocations_pages _ _⟩

theorem pass1Apply_length_pages (l1 : List UniqueLocation)
    (p1 : Option (List (String × List String) × List String)) :
    (pass1Apply l1 p1).1.length ≤ l1.length ∧
      pagesUnion (pass1Apply l1 p1).1 = pagesUnion l1 := by
  cases p1 with
  | none => exact ⟨le_rfl, rfl⟩
  | some p =>
    obtain ⟨mg, nc⟩ := p
    exact ⟨mergeLocations_length _ _, mergeLocations_pages _ _⟩

/-- C2: the four-pass dedup pipeline never increases the location count,
and the union of the surviving locations' page-number sets equals the
union of the input locations' page-number sets, for every input and every
outcome of the two external (LLM) passes, including failures. -/

theorem c2_dedup_count_and_pages (locs : List UniqueLocation)
    (p1 : Option (List (String × List String) × List String))
    (p2 : Option (List (String × String))) :
    (dedupPipeline locs p1 p2).length ≤ locs.length ∧
      pagesUnion (dedupPipeline locs p1 p2) = pagesUnion locs := by
  unfold dedupPipeline
  by_cases h0 : locs.isEmpty
  · rw [if_pos h0]; exact ⟨le_rfl, rfl⟩
  · rw [if_neg h0]
    obtain ⟨a1, b1⟩ := pass1Apply_length_pages (preMerge locs).1 p1
    obtain ⟨a2, b2⟩ := contextPass_length_pages (pass1Apply (preMerge locs).1 p1).1
      (pass1Apply (preMerge locs).1 p1).2 p2
    constructor
    · calc (mergeByLocationType _).1.length
          ≤ (contextPass (pass1Apply (preMerge locs).1 p1).1
              (pass1Apply (preMerge locs).1 p1).2 p2).length := mergeByLocationType_length _
        _ ≤ (pass1Apply (preMerge locs).1 p1).1.length := a2
        _ ≤ (preMerge locs).1.length := a1
        _ ≤ locs.length := preMerge_length locs
    · calc pagesUnion (mergeByLocationType _).1
          = pagesUnion (contextPass (pass1Apply (preMerge locs).1 p1).1
              (pass1Apply (preMerge locs).1 p1).2 p2) := mergeByLocationType_pages _
        _ = pagesUnion (pass1Apply (preMerge locs).1 p1).1 := b2
        _ = pagesUnion (preMerge locs).1 := b1
        _ = pagesUnion locs := preMerge_pages locs

/-- C3 (amended): in the pre-merge and type passes, merging an absorbed
location `a` into a canonical `c` appends occurrences, makes the page
numbers the duplicate-free sorted union, and widens time-of-day and
interior/exterior to "both" on any disagreement.  The name pass
(`_merge_locations`) does the same for occurrences, pages and
interior/exterior, but widens time-of-day only when the absorbed value
differs and is not itself "both": merging a location with time-of-day
"both" into one with "day" keeps "day" (see the counterexample), so the
original "never keeps one side's value on disagreement" is false. -/

theorem c3_merge_semantics_amended (c a : UniqueLocation) (ie : String) :
    ((preAbsorb c a).occurrences = c.occurrences ++ a.occurrences ∧
      (preAbsorb c a).page_numbers.toFinset =
        c.page_numbers.toFinset ∪ a.page_numbers.toFinset ∧
      (preAbsorb c a).page_numbers.Pairwise (· < ·) ∧
      (preAbsorb c a).time_of_day =
        (if c.time_of_day ≠ a.time_of_day then "both" else c.time_of_day) ∧
      (preAbsorb c a).interior_exterior =
        (if c.interior_exterior ≠ a.interior_exterior then "both"
         else c.interior_exterior)) ∧
    ((mergeInto c a).occurrences = c.occurrences ++ a.occurrences ∧
      (mergeInto c a).page_numbers.toFinset =
        c.page_numbers.toFinset ∪ a.page_numbers.toFinset ∧
      (mergeInto c a).page_numbers.Pairwise (· < ·) ∧
      (mergeInto c a).interior_exterior =
        (if c.interior_exterior ≠ a.interior_exterior then "both"
         else c.interior_exterior) ∧
      (mergeInto c a).time_of_day =
        (if c.time_of_day ≠ a.time_of_day ∧ a.time_of_day ≠ "both" then "both"
         else c.time_of_day)) ∧
    ((typeStep (c, ie) a).1.occurrences = c.occurrences ++ a.occurrences ∧
      (typeStep (c, ie) a).1.page_numbers.toFinset =
        c.page_numbers.toFinset ∪ a.page_numbers.toFinset ∧
      (typeStep (c, ie) a).1.page_numbers.Pairwise (· < ·) ∧
      (typeStep (c, ie) a).1.time_of_day =
        (if c.time_of_day ≠ a.time_of_day then "both" else c.time_of_day) ∧
      (typeStep (c, ie) a).2 = (if ie ≠ a.interior_exterior then "both" else ie)) :=
  ⟨⟨rfl, sortedSetUnion_toFinset _ _, sortedSetUnion_sorted _ _, rfl, rfl⟩,
   ⟨rfl, sortedSetUnion_toFinset _ _, sortedSetUnion_sorted _ _, rfl, rfl⟩,
   ⟨rfl, sortedSetUnion_toFinset _ _, sortedSetUnion_sorted _ _, rfl, rfl⟩⟩

/-- C3, original statement refuted: in the name pass, merging a location
whose time-of-day is "both" into one whose time-of-day is "day" keeps
"day" instead of widening to "both", because `_merge_locations` skips the
update when the incoming value is "both". -/

theorem c3_counterexample :
    (mergeLocations [("INT. Y", "INT. X")]
      [{ scene_header := "INT. X", interior_exterior := "interior", time_of_day := "day",
         occurrences := [{ page_number := 1, context := "x" }], page_numbers := [1] },
       { scene_header := "INT. Y", interior_exterior := "interior", time_of_day := "both",
         occurrences := [{ page_number := 2, context := "y" }], page_numbers := [2] }]).map
      UniqueLocation.time_of_day = ["day"] := by decide

/-- C4 (amended): when the type pass merges a group of two or more
locations sharing a canonical type, occurrences and pages are unioned,
time-of-day and interior/exterior widen to "both" on any mismatch, and
the survivor's header is `INT. <TYPE>` exactly when the merged
interior/exterior field is "interior", and `INT./EXT. <TYPE>` in every
other case — including when all members are exterior (see the
counterexample), contrary to the claim's "only if the merged set spans
both interior and exterior". -/

theorem c4_type_merge_amended (t : String) (locs : List UniqueLocation)
    (c : UniqueLocation) (rest : List UniqueLocation)
    (hs : sortByKey (firstPageOr 999) locs = c :: rest) (hne : rest ≠ []) :
    (mergeTypeGroup t locs).interior_exterior =
      (if rest.all (fun l => l.interior_exterior == c.interior_exterior)
       then c.interior_exterior else "both") ∧
    ((mergeTypeGroup t locs).scene_header = "INT. " ++ t ↔
      (mergeTypeGroup t locs).interior_exterior = "interior") ∧
    ((mergeTypeGroup t locs).scene_header = "INT. " ++ t ∨
      (mergeTypeGroup t locs).scene_header = "INT./EXT. " ++ t) ∧
    (mergeTypeGroup t locs).occurrences = c.occurrences ++ occsCat rest ∧
    (mergeTypeGroup t locs).page_numbers.toFinset = pagesUnion locs ∧
    (mergeTypeGroup t locs).page_numbers.Pairwise (· < ·) ∧
    (mergeTypeGroup t locs).time_of_day =
      (if rest.all (fun l => l.time_of_day == c.time_of_day) then c.time_of_day
       else "both") := by
  have hne5 : ("INT. " ++ t : String) ≠ "INT./EXT. " ++ t := by
    intro hc
    have h1 := congrArg String.length hc
    rw [String.length_append, String.length_append] at h1
    have h5 : ("INT. " : String).length = 5 := rfl
    have h10 : ("INT./EXT. " : String).length = 10 := rfl
    omega
  unfold mergeTypeGroup
  rw [hs]
  show ({ (rest.foldl typeStep (c, c.interior_exterior)).1 with
      interior_exterior := (rest.foldl typeStep (c, c.interior_exterior)).2,
      scene_header :=
        if (rest.foldl typeStep (c, c.interior_exterior)).2 = "interior"
        then "INT. " ++ t else "INT./EXT. " ++ t } : UniqueLocation).interior_exterior = _ ∧ _
  have hie := typeStepFold_ie rest (c, c.interior_exterior)
  have htod := typeStepFold_tod rest (c, c.interior_exterior)
  have hocc := typeStepFold_occ rest (c, c.interior_exterior)
  have hpag := typeStepFold_pages rest (c, c.interior_exterior)
  have hsor := typeStepFold_sorted rest (c, c.interior_exterior) hne
  refine ⟨hie, ?_, ?_, hocc, ?_, hsor, htod⟩
  · show (if (rest.foldl typeStep (c, c.interior_exterior)).2 = "interior"
        then "INT. " ++ t else "INT./EXT. " ++ t) = "INT. " ++ t ↔
      (rest.foldl typeStep (c, c.interior_exterior)).2 = "interior"
    by_cases hi : (rest.foldl typeStep (c, c.interior_exterior)).2 = "interior"
    · rw [if_pos hi]
      exact ⟨fun _ => hi, fun _ => rfl⟩
    · rw [if_neg hi]
      constructor
      · intro hc
        exact absurd hc.symm hne5
      · intro hc
        exact absurd hc hi
  · show (if (rest.foldl typeStep (c, c.interior_exterior)).2 = "interior"
        then "INT. " ++ t else "INT./EXT. " ++ t) = "INT. " ++ t ∨
      (if (rest.foldl typeStep (c, c.interior_exterior)).2 = "interior"
        then "INT. " ++ t else "INT./EXT. " ++ t) = "INT./EXT. " ++ t
    by_cases hi : (rest.foldl typeStep (c, c.interior_exterior)).2 = "interior"
    · rw [if_pos hi]
      exact Or.inl rfl
    · rw [if_neg hi]
      exact Or.inr rfl
  · show pagesOf (rest.foldl typeStep (c, c.interior_exterior)).1 = pagesUnion locs
    rw [hpag]
    have h2 : pagesOf c ∪ pagesUnion rest = pagesUnion (c :: rest) := rfl
    rw [h2, ← hs]
    exact pagesUnion_perm (sortByKey_perm _ _)

/-- C4, original statement refuted: a type group whose members are all
exterior still gets the `INT./EXT.` header form, because the source
chooses `INT.` only when the merged interior/exterior value is exactly
"interior". -/

theorem c4_counterexample :
    ((mergeByLocationType
      [{ scene_header := "EXT. BEDROOM - DAY", interior_exterior := "exterior",
         time_of_day := "day",
         occurrences := [{ page_number := 1, context := "a" }], page_numbers := [1] },
       { scene_header := "EXT. CAMPUS BEDROOM - NIGHT", interior_exterior := "exterior",
         time_of_day := "night",
         occurrences := [{ page_number := 2, context := "b" }], page_numbers := [2] }]).1.map
      UniqueLocation.scene_header = ["INT./EXT. BEDROOM"]) ∧
    ((mergeByLocationType
      [{ scene_header := "EXT. BEDROOM - DAY", interior_exterior := "exterior",
         time_of_day := "day",
         occurrences := [{ page_number := 1, context := "a" }], page_numbers := [1] },
       { scene_header := "EXT. CAMPUS BEDROOM - NIGHT", interior_exterior := "exterior",
         time_of_day := "night",
         occurrences := [{ page_number := 2, context := "b" }], page_numbers := [2] }]).1.map
      UniqueLocation.interior_exterior = ["exterior"]) := by decide

/-! ### Scoring lemmas -/

theorem phoneStep_eq (c : LocationCandidate) (s : ℚ) : phoneStep c s = s + phoneComp c := by
  unfold phoneStep phoneComp
  split_ifs <;> norm_num

theorem reasonStep_eq (c : LocationCandidate) (s : ℚ) :
    reasonStep c s = s + reasoningComp c := by
  unfold reasonStep reasoningComp
  split_ifs <;> norm_num

theorem ratingStep_eq (c : LocationCandidate) (s : ℚ) :
    ratingStep c s = s + ratingComp c := by
  unfold ratingStep ratingComp ratingPoints
  cases c.google_rating with
  | none => norm_num
  | some r => dsimp only; split_ifs <;> norm_num

theorem websiteStep_eq (c : LocationCandidate) (s : ℚ) :
    websiteStep c s = s + websiteComp c := by
  unfold websiteStep websiteComp
  split_ifs <;> norm_num

theorem flagStep_eq (c : LocationCandidate) (s : ℚ) : flagStep c s = s + redFlagComp c := by
  unfold flagStep redFlagComp redFlagPoints
  split_ifs <;> norm_num

theorem calculateMatchScore_eq (c : LocationCandidate) :
    calculateMatchScore c =
      min (phoneComp c + reasoningComp c + ratingComp c + websiteComp c + redFlagComp c)
        1 := by
  unfold calculateMatchScore
  rw [phoneStep_eq, reasonStep_eq, ratingStep_eq, websiteStep_eq, flagStep_eq]
  congr 1
  ring

theorem phoneComp_bounds (c : LocationCandidate) : 0 ≤ phoneComp c ∧ phoneComp c ≤ 1/4 := by
  unfold phoneComp
  split_ifs <;> norm_num

theorem reasoningComp_bounds (c : LocationCandidate) :
    0 ≤ reasoningComp c ∧ reasoningComp c ≤ 1/4 := by
  unfold reasoningComp
  split_ifs <;> norm_num

theorem ratingPoints_bounds (g : Option ℚ) (cnt : Int) :
    0 ≤ ratingPoints g cnt ∧ ratingPoints g cnt ≤ 1/4 := by
  unfold ratingPoints
  cases g with
  | none => norm_num
  | some r => dsimp only; split_ifs <;> norm_num

theorem websiteComp_bounds (c : LocationCandidate) :
    0 ≤ websiteComp c ∧ websiteComp c ≤ 1/10 := by
  unfold websiteComp
  split_ifs <;> norm_num

theorem redFlagPoints_bounds (n : Nat) :
    0 ≤ redFlagPoints n ∧ redFlagPoints n ≤ 3/20 := by
  unfold redFlagPoints
  split_ifs <;> norm_num

theorem score_sum_bounds (c : LocationCandidate) :
    0 ≤ phoneComp c + reasoningComp c + ratingComp c + websiteComp c + redFlagComp c ∧
      phoneComp c + reasoningComp c + ratingComp c + websiteComp c + redFlagComp c ≤ 1 := by
  obtain ⟨a1, b1⟩ := phoneComp_bounds c
  obtain ⟨a2, b2⟩ := reasoningComp_bounds c
  obtain ⟨a3, b3⟩ := ratingPoints_bounds c.google_rating c.google_review_count
  obtain ⟨a4, b4⟩ := websiteComp_bounds c
  obtain ⟨a5, b5⟩ := redFlagPoints_bounds c.red_flags.length
  unfold ratingComp redFlagComp
  constructor <;> linarith

theorem score_nonneg (c : LocationCandidate) : 0 ≤ calculateMatchScore c := by
  rw [calculateMatchScore_eq]
  exact le_min (score_sum_bounds c).1 (by norm_num)

theorem score_le_one (c : LocationCandidate) : calculateMatchScore c ≤ 1 := by
  rw [calculateMatchScore_eq]
  exact min_le_right _ _

theorem ratingPoints_mono_rating (cnt : Int) {r1 r2 : ℚ} (h : r1 ≤ r2) :
    ratingPoints (some r1) cnt ≤ ratingPoints (some r2) cnt := by
  unfold ratingPoints
  dsimp only
  by_cases h50 : 50 ≤ cnt
  · simp only [h50, and_true]
    split_ifs <;> first | linarith | norm_num
  · simp only [h50, and_false, if_false]
    split_ifs <;> first | linarith | norm_num

theorem ratingPoints_mono_count (g : Option ℚ) {c1 c2 : Int} (h : c1 ≤ c2) :
    ratingPoints g c1 ≤ ratingPoints g c2 := by
  unfold ratingPoints
  cases g with
  | none => exact le_rfl
  | some r =>
    dsimp only
    by_cases h4 : 4 ≤ r
    · simp only [h4, true_and]
      split_ifs <;> first | linarith | omega | norm_num
    · simp only [h4, false_and, if_false]
      exact le_rfl

theorem redFlagPoints_anti {n1 n2 : Nat} (h : n1 ≤ n2) :
    redFlagPoints n2 ≤ redFlagPoints n1 := by
  unfold redFlagPoints
  split_ifs <;> first | omega | norm_num

/-- C6: the composite match score is the clamped sum of the five factor
components — 1/4 for a (truthy) phone number, 1/4 for non-empty
match-reasoning text, a rating component that is 1/4 exactly when the
rating is at least 4.0 and the review count at least 50 (3/20 from rating
3.5, 1/10 from rating 3.0, and 0 with no rating), 1/10 for a website, and
3/20, 1/10 or 0 for zero, one, or two-or-more red flags — clamped to at
most 1 and never negative. -/

theorem c6_match_score_formula (c : LocationCandidate) :
    calculateMatchScore c =
      min (phoneComp c + reasoningComp c + ratingComp c + websiteComp c + redFlagComp c)
        1 ∧
    (ratingComp c = 1/4 ↔
      ∃ r, c.google_rating = some r ∧ 4 ≤ r ∧ 50 ≤ c.google_review_count) ∧
    ratingPoints none c.google_review_count = 0 ∧
    0 ≤ calculateMatchScore c ∧ calculateMatchScore c ≤ 1 := by
  refine ⟨calculateMatchScore_eq c, ?_, rfl, score_nonneg c, score_le_one c⟩
  unfold ratingComp ratingPoints
  cases hg : c.google_rating with
  | none => simp
  | some r =>
    simp only [hg, Option.some.injEq]
    split_ifs with h0 h45 h35 h3
    · subst h0
      constructor
      · intro hc; norm_num at hc
      · rintro ⟨r2, hr2, h4, -⟩
        subst hr2
        norm_num at h4
    · simp only [eq_self_iff_true, true_iff]
      exact ⟨r, rfl, h45⟩
    · constructor
      · intro hc; norm_num at hc
      · rintro ⟨r2, hr2, h4, h50⟩
        cases hr2
        exact absurd ⟨h4, h50⟩ h45
    · constructor
      · intro hc; norm_num at hc
      · rintro ⟨r2, hr2, h4, h50⟩
        cases hr2
        exact absurd ⟨h4, h50⟩ h45
    · constructor
      · intro hc; norm_num at hc
      · rintro ⟨r2, hr2, h4, h50⟩
        cases hr2
        exact absurd ⟨h4, h50⟩ h45

/-- C7: with all other fields fixed, the match score is non-decreasing in
the google rating, in the review count, in phone-number presence and in
website presence, non-increasing in the number of red flags, and lies in
the interval from 0 to 1 for every candidate (including one with no
phone, no reasoning, no rating, no website and no red flags). -/

theorem c7_match_score_monotone :
    (∀ (c : LocationCandidate) (r1 r2 : ℚ), r1 ≤ r2 →
      calculateMatchScore { c with google_rating := some r1 } ≤
        calculateMatchScore { c with google_rating := some r2 }) ∧
    (∀ (c : LocationCandidate) (n1 n2 : Int), n1 ≤ n2 →
      calculateMatchScore { c with google_review_count := n1 } ≤
        calculateMatchScore { c with google_review_count := n2 }) ∧
    (∀ (c : LocationCandidate) (s : String),
      calculateMatchScore { c with phone_number := none } ≤
        calculateMatchScore { c with phone_number := some s }) ∧
    (∀ (c : LocationCandidate) (s : String),
      calculateMatchScore { c with website_url := none } ≤
        calculateMatchScore { c with website_url := some s }) ∧
    (∀ (c : LocationCandidate) (f1 f2 : List String), f1.length ≤ f2.length →
      calculateMatchScore { c with red_flags := f2 } ≤
        calculateMatchScore { c with red_flags := f1 }) ∧
    (∀ c : LocationCandidate, 0 ≤ calculateMatchScore c ∧ calculateMatchScore c ≤ 1) := by
  refine ⟨?_, ?_, ?_, ?_, ?_, fun c => ⟨score_nonneg c, score_le_one c⟩⟩
  · intro c r1 r2 h
    rw [calculateMatchScore_eq, calculateMatchScore_eq]
    refine min_le_min ?_ le_rfl
    show phoneComp c + reasoningComp c + ratingPoints (some r1) c.google_review_count +
        websiteComp c + redFlagComp c ≤
      phoneComp c + reasoningComp c + ratingPoints (some r2) c.google_review_count +
        websiteComp c + redFlagComp c
    have hm := ratingPoints_mono_rating c.google_review_count h
    linarith
  · intro c n1 n2 h
    rw [calculateMatchScore_eq, calculateMatchScore_eq]
    refine min_le_min ?_ le_rfl
    show phoneComp c + reasoningComp c + ratingPoints c.google_rating n1 +
        websiteComp c + redFlagPoints c.red_flags.length ≤
      phoneComp c + reasoningComp c + ratingPoints c.google_rating n2 +
        websiteComp c + redFlagPoints c.red_flags.length
    have hm := ratingPoints_mono_count c.google_rating h
    linarith
  · intro c s
    rw [calculateMatchScore_eq, calculateMatchScore_eq]
    refine min_le_min ?_ le_rfl
    show (0 : ℚ) + reasoningComp c + ratingComp c + websiteComp c + redFlagComp c ≤
      (if truthyOptStr (some s) then (1 : ℚ)/4 else 0) + reasoningComp c + ratingComp c +
        websiteComp c + redFlagComp c
    have hm : (0 : ℚ) ≤ if truthyOptStr (some s) then (1 : ℚ)/4 else 0 := by
      split_ifs <;> norm_num
    linarith
  · intro c s
    rw [calculateMatchScore_eq, calculateMatchScore_eq]
    refine min_le_min ?_ le_rfl
    show phoneComp c + reasoningComp c + ratingComp c + (0 : ℚ) + redFlagComp c ≤
      phoneComp c + reasoningComp c + ratingComp c +
        (if truthyOptStr (some s) then (1 : ℚ)/10 else 0) + redFlagComp c
    have hm : (0 : ℚ) ≤ if truthyOptStr (some s) then (1 : ℚ)/10 else 0 := by
      split_ifs <;> norm_num
    linarith
  · intro c f1 f2 h
    rw [calculateMatchScore_eq, calculateMatchScore_eq]
    refine min_le_min ?_ le_rfl
    show phoneComp c + reasoningComp c + ratingComp c + websiteComp c +
        redFlagPoints f2.length ≤
      phoneComp c + reasoningComp c + ratingComp c + websiteComp c +
        redFlagPoints f1.length
    have hm := redFlagPoints_anti h
    linarith

/-! ### Parsing and lifecycle lemmas -/

theorem parseBase_phone (req : LocationRequirement) (raw : RawLocation) :
    (parseBase req raw).phone_number = raw.phone_number := by
  unfold parseBase
  by_cases hc : raw.potential_concerns.isEmpty <;> simp [hc]

theorem parseBase_flags (req : LocationRequirement) (raw : RawLocation) :
    (parseBase req raw).red_flags = raw.potential_concerns := by
  unfold parseBase
  by_cases hc : raw.potential_concerns.isEmpty
  · simp only [hc, if_true]
    exact (List.isEmpty_iff.mp hc).symm
  · simp [hc]

theorem parseBase_score (req : LocationRequirement) (raw : RawLocation) :
    (parseBase req raw).match_score = calculateMatchScore (parseBase req raw) := by
  unfold parseBase
  by_cases hc : raw.potential_concerns.isEmpty <;> simp only [hc, if_true, if_false] <;> rfl

theorem parseOneLocation_no_phone (req : LocationRequirement) (raw : RawLocation)
    (h : truthyOptStr raw.phone_number = false) :
    parseOneLocation req raw = set_no_phone_status (parseBase req raw) := by
  have hb : truthyOptStr (parseBase req raw).phone_number = false := by
    rw [parseBase_phone]; exact h
  have hneg : ¬(truthyOptStr (parseBase req raw).phone_number = true) := by simp [hb]
  unfold parseOneLocation
  rw [if_neg hneg]

theorem applyOp_status (c : LocationCandidate) (op : CandidateOp) :
    (applyOp c op).status = CandidateStatus.approved ∨
      (applyOp c op).status = CandidateStatus.rejected := by
  cases op with
  | approve b => exact Or.inl rfl
  | reject r => exact Or.inr rfl

theorem runOps_never_call_status (ops : List CandidateOp) :
    ∀ c : LocationCandidate,
      c.status ≠ CandidateStatus.call_pending →
      c.status ≠ CandidateStatus.call_in_progress →
      (runOps c ops).status ≠ CandidateStatus.call_pending ∧
        (runOps c ops).status ≠ CandidateStatus.call_in_progress := by
  induction ops with
  | nil => intro c h1 h2; exact ⟨h1, h2⟩
  | cons op ops ih =>
    intro c h1 h2
    show (runOps (applyOp c op) ops).status ≠ _ ∧ _
    rcases applyOp_status c op with h | h
    · exact ih _ (by rw [h]; decide) (by rw [h]; decide)
    · exact ih _ (by rw [h]; decide) (by rw [h]; decide)

/-- C8: a candidate parsed without a (truthy) phone number is created
directly in `human_review` with call status `no_phone_number` and the
standing red flag, and no sequence of the repository's status operations
(approve / reject, the only writers of candidate status in the source)
ever places it in `call_pending` or `call_in_progress`. -/

theorem c8_no_phone_lifecycle (req : LocationRequirement) (raw : RawLocation)
    (ops : List CandidateOp) (h : truthyOptStr raw.phone_number = false) :
    (parseOneLocation req raw).status = CandidateStatus.human_review ∧
    (parseOneLocation req raw).vapi_call_status = VapiCallStatus.no_phone_number ∧
    "Phone number not available in listing" ∈ (parseOneLocation req raw).red_flags ∧
    (runOps (parseOneLocation req raw) ops).status ≠ CandidateStatus.call_pending ∧
    (runOps (parseOneLocation req raw) ops).status ≠ CandidateStatus.call_in_progress := by
  have hp := parseOneLocation_no_phone req raw h
  rw [hp]
  obtain ⟨i1, i2⟩ := runOps_never_call_status ops (set_no_phone_status (parseBase req raw))
    (by show CandidateStatus.human_review ≠ _; decide)
    (by show CandidateStatus.human_review ≠ _; decide)
  refine ⟨rfl, rfl, ?_, i1, i2⟩
  unfold set_no_phone_status
  simp

/-- C10: for a no-phone candidate the stored match score is the one
computed before `set_no_phone_status` appends its red flag — it equals
the score of the pre-status candidate, whose red-flag list is exactly the
provider-reported concerns; in particular with zero concerns the score
still contains the full 3/20 zero-red-flag credit although the candidate
finishes creation with one red flag, and it is not recomputed. -/

theorem c10_score_precedes_no_phone_flag (req : LocationRequirement) (raw : RawLocation)
    (h : truthyOptStr raw.phone_number = false) :
    (parseOneLocation req raw).red_flags =
      raw.potential_concerns ++ ["Phone number not available in listing"] ∧
    (parseOneLocation req raw).match_score = calculateMatchScore (parseBase req raw) ∧
    (parseBase req raw).red_flags = raw.potential_concerns ∧
    (raw.potential_concerns = [] →
      (parseOneLocation req raw).red_flags.length = 1 ∧
      (parseOneLocation req raw).match_score =
        reasoningComp (parseBase req raw) + ratingComp (parseBase req raw) +
          websiteComp (parseBase req raw) + 3/20) := by
  have hp := parseOneLocation_no_phone req raw h
  have hb : truthyOptStr (parseBase req raw).phone_number = false := by
    rw [parseBase_phone]; exact h
  rw [hp]
  have hflags : (set_no_phone_status (parseBase req raw)).red_flags =
      raw.potential_concerns ++ ["Phone number not available in listing"] := by
    unfold set_no_phone_status
    rw [parseBase_flags]
  have hscore : (set_no_phone_status (parseBase req raw)).match_score =
      calculateMatchScore (parseBase req raw) := parseBase_score req raw
  refine ⟨hflags, hscore, parseBase_flags req raw, ?_⟩
  intro hc
  constructor
  · rw [hflags, hc]
    rfl
  · rw [hscore, calculateMatchScore_eq]
    have hphone : phoneComp (parseBase req raw) = 0 := by
      unfold phoneComp
      rw [if_neg (by simp [hb])]
    have hflag : redFlagComp (parseBase req raw) = 3/20 := by
      unfold redFlagComp
      rw [parseBase_flags, hc]
      rfl
    rw [hphone, hflag]
    obtain ⟨a2, b2⟩ := reasoningComp_bounds (parseBase req raw)
    obtain ⟨a3, b3⟩ := ratingPoints_bounds (parseBase req raw).google_rating
      (parseBase req raw).google_review_count
    obtain ⟨a4, b4⟩ := websiteComp_bounds (parseBase req raw)
    have hsum : (0 : ℚ) + reasoningComp (parseBase req raw) + ratingComp (parseBase req raw) +
        websiteComp (parseBase req raw) + 3/20 ≤ 1 := by
      unfold ratingComp
      linarith
    rw [min_eq_left hsum]
    ring

/-! ### Batch scheduler lemmas -/

theorem processScenes_getElem :
    ∀ (reqs : List LocationRequirement) (outcomes : List (Except String GroundingResult))
      (i : Nat),
      (processScenes reqs outcomes)[i]? =
        match reqs[i]?, outcomes[i]? with
        | some req, some oc => some (outcomeResult req oc)
        | some _, none => none
        | none, _ => none := by
  intro reqs
  induction reqs with
  | nil => intro outcomes i; cases outcomes <;> cases i <;> simp [processScenes]
  | cons a as ih =>
    intro outcomes i
    cases outcomes with
    | nil =>
      cases i with
      | zero => simp [processScenes]
      | succ n =>
        simp only [processScenes, List.zip_nil_right, List.map_nil, List.getElem?_nil,
          List.getElem?_cons_succ]
        cases as[n]? <;> rfl
    | cons oc ocs =>
      cases i with
      | zero => simp [processScenes]
      | succ n => simpa [processScenes] using ih ocs n

/-- C1: `process_scenes` returns exactly one result per requirement, in
input order: the `i`-th result is the `i`-th outcome's result when that
requirement succeeded, and the error placeholder — empty candidate list,
the exception message as the sole `errors` entry, the requirement's ids —
when it raised; outcomes of other requirements never affect it, so even a
batch in which every call raises yields a full, aligned result list. -/

theorem c1_batch_isolation (reqs : List LocationRequirement)
    (outcomes : List (Except String GroundingResult))
    (h : outcomes.length = reqs.length) :
    (processScenes reqs outcomes).length = reqs.length ∧
    (∀ (i : Nat) (e : String), outcomes[i]? = some (Except.error e) →
      ∃ req, reqs[i]? = some req ∧
        (processScenes reqs outcomes)[i]? = some (errorResult req e) ∧
        (errorResult req e).errors = [e] ∧ (errorResult req e).candidates = [] ∧
        (errorResult req e).scene_id = req.id ∧
        (errorResult req e).project_id = req.project_id) ∧
    (∀ (i : Nat) (r : GroundingResult), outcomes[i]? = some (Except.ok r) →
      (processScenes reqs outcomes)[i]? = some r) := by
  refine ⟨?_, ?_, ?_⟩
  · unfold processScenes
    rw [List.length_map, List.length_zip, h, min_self]
  · intro i e hi
    have hlt : i < outcomes.length := by
      by_contra hge
      push_neg at hge
      rw [List.getElem?_eq_none hge] at hi
      cases hi
    have hltr : i < reqs.length := by omega
    refine ⟨reqs[i], List.getElem?_eq_getElem hltr, ?_, rfl, rfl, rfl, rfl⟩
    rw [processScenes_getElem, List.getElem?_eq_getElem hltr, hi]
    rfl
  · intro i r hi
    have hlt : i < outcomes.length := by
      by_contra hge
      push_neg at hge
      rw [List.getElem?_eq_none hge] at hi
      cases hi
    have hltr : i < reqs.length := by omega
    rw [processScenes_getElem, List.getElem?_eq_getElem hltr, hi]
    rfl

/-- Witness for the amended C4 theorem at a concrete two-member exterior
bedroom group. -/

theorem c4_witness :
    (sortByKey (firstPageOr 999) [cwBedroom1, cwBedroom2] = cwBedroom1 :: [cwBedroom2]) ∧
    ([cwBedroom2] ≠ []) ∧
    (mergeTypeGroup "BEDROOM" [cwBedroom1, cwBedroom2]).interior_exterior =
      (if [cwBedroom2].all (fun l => l.interior_exterior == cwBedroom1.interior_exterior)
       then cwBedroom1.interior_exterior else "both") ∧
    ((mergeTypeGroup "BEDROOM" [cwBedroom1, cwBedroom2]).scene_header = "INT. " ++ "BEDROOM" ↔
      (mergeTypeGroup "BEDROOM" [cwBedroom1, cwBedroom2]).interior_exterior = "interior") ∧
    ((mergeTypeGroup "BEDROOM" [cwBedroom1, cwBedroom2]).scene_header = "INT. " ++ "BEDROOM" ∨
      (mergeTypeGroup "BEDROOM" [cwBedroom1, cwBedroom2]).scene_header =
        "INT./EXT. " ++ "BEDROOM") ∧
    (mergeTypeGroup "BEDROOM" [cwBedroom1, cwBedroom2]).occurrences =
      cwBedroom1.occurrences ++ occsCat [cwBedroom2] ∧
    (mergeTypeGroup "BEDROOM" [cwBedroom1, cwBedroom2]).page_numbers.toFinset =
      pagesUnion [cwBedroom1, cwBedroom2] ∧
    (mergeTypeGroup "BEDROOM" [cwBedroom1, cwBedroom2]).page_numbers.Pairwise (· < ·) ∧
    (mergeTypeGroup "BEDROOM" [cwBedroom1, cwBedroom2]).time_of_day =
      (if [cwBedroom2].all (fun l => l.time_of_day == cwBedroom1.time_of_day)
       then cwBedroom1.time_of_day else "both") :=
  ⟨by decide, by decide,
    c4_type_merge_amended "BEDROOM" [cwBedroom1, cwBedroom2] cwBedroom1 [cwBedroom2]
      (by decide) (by decide)⟩

/-- Witness for the C7 theorem at a concrete candidate: each monotonicity
conjunct instantiated with concrete moved inputs. -/

theorem c7_witness :
    calculateMatchScore { cwCand with google_rating := some 3 } ≤
      calculateMatchScore { cwCand with google_rating := some 4 } ∧
    calculateMatchScore { cwCand with google_review_count := 10 } ≤
      calculateMatchScore { cwCand with google_review_count := 60 } ∧
    calculateMatchScore { cwCand with phone_number := none } ≤
      calculateMatchScore { cwCand with phone_number := some "555-0100" } ∧
    calculateMatchScore { cwCand with website_url := none } ≤
      calculateMatchScore { cwCand with website_url := some "cafe.example" } ∧
    calculateMatchScore { cwCand with red_flags := ["noise", "permits"] } ≤
      calculateMatchScore { cwCand with red_flags := [] } ∧
    (0 ≤ calculateMatchScore cwCand ∧ calculateMatchScore cwCand ≤ 1) :=
  ⟨c7_match_score_monotone.1 cwCand 3 4 (by norm_num),
   c7_match_score_monotone.2.1 cwCand 10 60 (by norm_num),
   c7_match_score_monotone.2.2.1 cwCand "555-0100",
   c7_match_score_monotone.2.2.2.1 cwCand "cafe.example",
   c7_match_score_monotone.2.2.2.2.1 cwCand [] ["noise", "permits"] (by decide),
   c7_match_score_monotone.2.2.2.2.2 cwCand⟩

/-- Witness for the C8 theorem at a concrete no-phone provider record,
with a concrete approve operation applied afterwards. -/

theorem c8_witness :
    truthyOptStr cwRawNoPhone.phone_number = false ∧
    (parseOneLocation cwReq cwRawNoPhone).status = CandidateStatus.human_review ∧
    (parseOneLocation cwReq cwRawNoPhone).vapi_call_status = VapiCallStatus.no_phone_number ∧
    "Phone number not available in listing" ∈ (parseOneLocation cwReq cwRawNoPhone).red_flags ∧
    (runOps (parseOneLocation cwReq cwRawNoPhone) [CandidateOp.approve "alice"]).status ≠
      CandidateStatus.call_pending ∧
    (runOps (parseOneLocation cwReq cwRawNoPhone) [CandidateOp.approve "alice"]).status ≠
      CandidateStatus.call_in_progress :=
  ⟨rfl, c8_no_phone_lifecycle cwReq cwRawNoPhone [CandidateOp.approve "alice"] rfl⟩

/-- Witness for the C10 theorem at a concrete no-phone provider record
with zero reported concerns, with the zero-concern implication also
instantiated. -/

theorem c10_witness :
    truthyOptStr cwRawNoPhone.phone_number = false ∧
    cwRawNoPhone.potential_concerns = [] ∧
    (parseOneLocation cwReq cwRawNoPhone).red_flags =
      cwRawNoPhone.potential_concerns ++ ["Phone number not available in listing"] ∧
    (parseOneLocation cwReq cwRawNoPhone).match_score =
      calculateMatchScore (parseBase cwReq cwRawNoPhone) ∧
    (parseBase cwReq cwRawNoPhone).red_flags = cwRawNoPhone.potential_concerns ∧
    (parseOneLocation cwReq cwRawNoPhone).red_flags.length = 1 ∧
    (parseOneLocation cwReq cwRawNoPhone).match_score =
      reasoningComp (parseBase cwReq cwRawNoPhone) + ratingComp (parseBase cwReq cwRawNoPhone) +
        websiteComp (parseBase cwReq cwRawNoPhone) + 3/20 :=
  ⟨rfl, rfl,
   (c10_score_precedes_no_phone_flag cwReq cwRawNoPhone rfl).1,
   (c10_score_precedes_no_phone_flag cwReq cwRawNoPhone rfl).2.1,
   (c10_score_precedes_no_phone_flag cwReq cwRawNoPhone rfl).2.2.1,
   ((c10_score_precedes_no_phone_flag cwReq cwRawNoPhone rfl).2.2.2 rfl).1,
   ((c10_score_precedes_no_phone_flag cwReq cwRawNoPhone rfl).2.2.2 rfl).2⟩

/-- Witness for the C1 theorem on a concrete two-requirement batch in
which the first call succeeds and the second raises. -/

theorem c1_witness :
    ([Except.ok cwOkResult, Except.error "boom"] :
        List (Except String GroundingResult)).length =
      ([cwReq, cwReq2] : List LocationRequirement).length ∧
    (processScenes [cwReq, cwReq2] [Except.ok cwOkResult, Except.error "boom"]).length =
      ([cwReq, cwReq2] : List LocationRequirement).length ∧
    (processScenes [cwReq, cwReq2] [Except.ok cwOkResult, Except.error "boom"])[0]? =
      some cwOkResult ∧
    (∃ req, ([cwReq, cwReq2] : List LocationRequirement)[1]? = some req ∧
      (processScenes [cwReq, cwReq2] [Except.ok cwOkResult, Except.error "boom"])[1]? =
        some (errorResult req "boom") ∧
      (errorResult req "boom").errors = ["boom"] ∧
      (errorResult req "boom").candidates = [] ∧
      (errorResult req "boom").scene_id = req.id ∧
      (errorResult req "boom").project_id = req.project_id) := by
  have h := c1_batch_isolation [cwReq, cwReq2] [Except.ok cwOkResult, Except.error "boom"] rfl
  exact ⟨rfl, h.1, h.2.2 0 cwOkResult (by simp), h.2.1 1 "boom" (by simp)⟩

end LatticeAI
